import Mathlib

/-!
# immuadmin statistics: the metrics aggregator

A shallow embedding of `cmd/immuadmin/statisticscmd/metrics.go`.

* `uint64` values are natural numbers below `2^64`; every `uint64` addition of the
  source is reduced modulo `2^64`.
* `float64` is kept abstract: the code is embedded over any type `F` carrying the
  operations of `GoFloat64`, so that what is proved holds for every reading of the
  floating-point operations.  The rationals with exact arithmetic are one instance;
  they agree with IEEE-754 binary64 on every input whose values and intermediate
  results are binary64 numbers (small integers, halves), and concrete inputs are
  evaluated there.
* A Go map is an association list read through `GoMap.get?`; `m[k] = v` is
  `GoMap.set`.  The families map is a lookup function whose result `none` stands
  for the nil `*dto.MetricFamily` that a Go map lookup yields for an absent key; the
  pointer `metricsFamilies` itself is not nil.
* A run-time panic (index out of range, nil dereference) is the result `none`.
* The clock that `time.Since` reads is a parameter, `now`.
-/

namespace Statisticscmd

/-! ## float64 -/

/-- The operations on `float64` that the program performs. -/
class GoFloat64 (F : Type) where
  /-- the zero value `0.0` of a `float64` variable -/
  zero : F
  /-- `x + y` -/
  add : F → F → F
  /-- `x / y` -/
  div : F → F → F
  /-- the conversion `float64(c)` of a `uint64` -/
  ofUInt64 : Nat → F
  /-- the conversion `float64(d)` of an `int64`, and of an integer constant -/
  ofInt64 : Int → F
  /-- the conversion `uint64(x)` -/
  toUInt64 : F → Nat
  /-- the comparison `x < y` -/
  lt : F → F → Bool

/-- The conversion `uint64(x)`, a value of type `uint64`. -/
def uint64 {F : Type} [GoFloat64 F] (x : F) : Nat :=
  GoFloat64.toUInt64 x % 2 ^ 64

/-- Exact rational arithmetic; `uint64(x)` truncates towards zero. -/
instance ratFloat64 : GoFloat64 ℚ where
  zero := 0
  add x y := x + y
  div x y := x / y
  ofUInt64 n := (n : ℚ)
  ofInt64 d := (d : ℚ)
  toUInt64 x := (x.num.tdiv (x.den : Int)).toNat
  lt x y := decide (x < y)

/-- One hour in nanoseconds, `time.Hour`. -/
def Hour : Int := 60 * 60 * 1000000000

/-- The facts about binary64 that the results on integer inputs rest on.  All three
hold of IEEE-754 binary64: integers below `2^53` are binary64 numbers, and in
`Duration.Hours` the quotient `float64(nsec)/(60*60*1e9)` has absolute value below 1
and the sign of the duration, while `float64(hour)` is an integer of the same sign. -/
class GoFloat64.Exact (F : Type) [GoFloat64 F] : Prop where
  /-- integers below `2^53` survive the round trip through `float64` -/
  toUInt64_ofUInt64 : ∀ n : Nat, n < 2 ^ 53 →
    GoFloat64.toUInt64 (GoFloat64.ofUInt64 n : F) = n
  /-- the sum of two integers is exact while it stays below `2^53` -/
  add_ofUInt64 : ∀ a b : Nat, a + b < 2 ^ 53 →
    GoFloat64.add (GoFloat64.ofUInt64 a : F) (GoFloat64.ofUInt64 b) = GoFloat64.ofUInt64 (a + b)
  /-- `Duration.Hours` of an `int64` duration is below `1` exactly when the duration
  is below one hour -/
  hours_lt_one : ∀ d : Int, -(2 ^ 63) ≤ d → d < 2 ^ 63 →
    (GoFloat64.lt
        (GoFloat64.add (GoFloat64.ofInt64 (d.tdiv Hour) : F)
          (GoFloat64.div (GoFloat64.ofInt64 (d.tmod Hour)) (GoFloat64.ofInt64 Hour)))
        (GoFloat64.ofInt64 1) = true ↔ d < Hour)

/-! ## Go maps -/

/-- A Go `map[string]V`: the entries, at most one for each key. -/
abbrev GoMap (V : Type) := List (String × V)

namespace GoMap

/-- `m[k]` with the comma-ok flag: `none` when `k` is not a key. -/
def get? {V : Type} (m : GoMap V) (k : String) : Option V :=
  match m with
  | [] => none
  | (k', v) :: rest => if k' = k then some v else get? rest k

/-- `m[k] = v`. -/
def set {V : Type} (m : GoMap V) (k : String) (v : V) : GoMap V :=
  (k, v) :: m.filter (fun e => decide (e.1 ≠ k))

/-- The keys of the map. -/
def keys {V : Type} (m : GoMap V) : List String := m.map Prod.fst

end GoMap

/-! ## The Prometheus client model (`dto`) -/

/-- `dto.LabelPair`; a nil `*dto.LabelPair` reads like the pair without fields. -/
structure LabelPair where
  name : Option String := none
  value : Option String := none
deriving DecidableEq

def LabelPair.GetName (l : LabelPair) : String := l.name.getD ""

def LabelPair.GetValue (l : LabelPair) : String := l.value.getD ""

/-- `dto.Gauge`. -/
structure Gauge (F : Type) where
  value : Option F := none
deriving DecidableEq

/-- `dto.Counter`. -/
structure Counter (F : Type) where
  value : Option F := none
deriving DecidableEq

/-- `dto.Untyped`. -/
structure Untyped (F : Type) where
  value : Option F := none
deriving DecidableEq

/-- `dto.Histogram`, without its buckets. -/
structure Histogram (F : Type) where
  sampleCount : Option Nat := none
  sampleSum : Option F := none
deriving DecidableEq

/-- `dto.Metric`; a nil `*dto.Metric` reads like the metric without fields. -/
structure Metric (F : Type) where
  label : List LabelPair := []
  gauge : Option (Gauge F) := none
  counter : Option (Counter F) := none
  histogram : Option (Histogram F) := none
  untyped : Option (Untyped F) := none
deriving DecidableEq

/-- `dto.MetricFamily`. -/
structure MetricFamily (F : Type) where
  metric : List (Metric F) := []
deriving DecidableEq

/-- The input `map[string]*dto.MetricFamily`. -/
abbrev Families (F : Type) := String → Option (MetricFamily F)

section Getters

variable {F : Type} [GoFloat64 F]

/-- `(*Gauge).GetValue`, at a possibly nil receiver. -/
def Gauge.GetValue (g : Option (Gauge F)) : F :=
  match g with
  | some ⟨some v⟩ => v
  | _ => GoFloat64.zero

/-- `(*Counter).GetValue`, at a possibly nil receiver. -/
def Counter.GetValue (c : Option (Counter F)) : F :=
  match c with
  | some ⟨some v⟩ => v
  | _ => GoFloat64.zero

/-- `(*Untyped).GetValue`, at a possibly nil receiver. -/
def Untyped.GetValue (u : Option (Untyped F)) : F :=
  match u with
  | some ⟨some v⟩ => v
  | _ => GoFloat64.zero

/-- `(*Histogram).GetSampleCount`, at a possibly nil receiver. -/
def Histogram.GetSampleCount (h : Option (Histogram F)) : Nat :=
  match h with
  | some ⟨some c, _⟩ => c
  | _ => 0

/-- `(*Histogram).GetSampleSum`, at a possibly nil receiver. -/
def Histogram.GetSampleSum (h : Option (Histogram F)) : F :=
  match h with
  | some ⟨_, some s⟩ => s
  | _ => GoFloat64.zero

/-- `(*MetricFamily).GetMetric`, at a possibly nil receiver. -/
def MetricFamily.GetMetric (f : Option (MetricFamily F)) : List (Metric F) :=
  match f with
  | some mf => mf.metric
  | none => []

end Getters

/-- The loop `for _, labelPair := range labels { if labelPair.GetName() == name
{ ...labelPair.GetValue()...; break } }`: the value of the first label called
`name`, if there is one. -/
def findLabel (name : String) : List LabelPair → Option String
  | [] => none
  | lp :: rest => if lp.GetName = name then some lp.GetValue else findLabel name rest

/-- The same loop assigning to a fresh `var v string`, which stays empty when no
label is called `name`. -/
def labelValue (name : String) (labels : List LabelPair) : String :=
  (findLabel name labels).getD ""

/-! ## The tables -/

def readers : GoMap Bool :=
  [("ByIndex", true), ("ByIndexSV", true), ("Consistency", true), ("Count", true),
   ("CurrentRoot", true), ("Dump", true), ("Get", true), ("GetBatch", true),
   ("GetBatchSV", true), ("GetSV", true), ("Health", true), ("History", true),
   ("HistorySV", true), ("IScan", true), ("IScanSV", true), ("Inclusion", true),
   ("Login", true), ("SafeGet", true), ("SafeGetSV", true), ("Scan", true),
   ("ScanSV", true), ("ZScan", true), ("ZScanSV", true)]

def writers : GoMap Bool :=
  [("Reference", true), ("SafeReference", true), ("SafeSet", true), ("SafeSetSV", true),
   ("SafeZAdd", true), ("Set", true), ("SetBatch", true), ("SetBatchSV", true),
   ("SetSV", true), ("ZAdd", true)]

/-! ## The metrics value -/

structure rpcDuration (F : Type) where
  method : String
  counter : Nat
  totalDuration : F
  avgDuration : F
deriving DecidableEq

structure dbInfo (F : Type) where
  name : String
  lsmBytes : Nat
  vlogBytes : Nat
  totalBytes : Nat
  nbEntries : Nat
  uptimeHours : F
deriving DecidableEq

structure operations (F : Type) where
  counter : Nat
  duration : F
  avgDuration : F
deriving DecidableEq

structure memstats where
  sysBytes : Nat
  heapAllocBytes : Nat
  heapIdleBytes : Nat
  heapInUseBytes : Nat
  stackInUseBytes : Nat
deriving DecidableEq

structure metrics (F : Type) where
  durationRPCsByMethod : GoMap (rpcDuration F)
  reads : operations F
  writes : operations F
  nbClients : Nat
  nbRPCsPerClient : GoMap Nat
  lastMsgAtPerClient : GoMap Nat
  db : dbInfo F
  memstats : memstats
deriving DecidableEq

/-- The zero value of `metrics`. -/
def metrics.zero {F : Type} [GoFloat64 F] : metrics F where
  durationRPCsByMethod := []
  reads := ⟨0, GoFloat64.zero, GoFloat64.zero⟩
  writes := ⟨0, GoFloat64.zero, GoFloat64.zero⟩
  nbClients := 0
  nbRPCsPerClient := []
  lastMsgAtPerClient := []
  db := ⟨"", 0, 0, 0, 0, GoFloat64.zero⟩
  memstats := ⟨0, 0, 0, 0, 0⟩

/-! ## Time -/

/-- A `time.Time` without monotonic reading: seconds and nanoseconds since the
Unix epoch. -/
structure Time where
  sec : Int
  nsec : Int
deriving DecidableEq

/-- The conversion `int64(x)` of a `uint64`. -/
def int64 (x : Nat) : Int :=
  if x % 2 ^ 64 < 2 ^ 63 then ((x % 2 ^ 64 : Nat) : Int) else ((x % 2 ^ 64 : Nat) : Int) - 2 ^ 64

/-- The constant `unixToInternal` of the package `time`: the seconds from the year 1,
where the package starts counting, to the Unix epoch. -/
def unixToInternal : Int := 62135596800

/-- An `int64` sum or difference as the machine computes it: modulo `2^64`, in the
range from `-2^63` to `2^63 - 1`. -/
def wrapInt64 (x : Int) : Int := (x + 2 ^ 63) % 2 ^ 64 - 2 ^ 63

/-- `time.Unix(sec, 0)` for an `int64` `sec`: the package stores the `int64` sum
`sec + unixToInternal`, so the time it denotes is `sec` seconds after the Unix epoch
when that sum fits, and `2^64` seconds earlier when it wraps around. -/
def Time.Unix (sec : Int) : Time := ⟨wrapInt64 (sec + unixToInternal) - unixToInternal, 0⟩

/-- Nanoseconds since the Unix epoch. -/
def Time.unixNano (t : Time) : Int := t.sec * 1000000000 + t.nsec

/-- `t.Sub(u)`: the duration `t - u` in nanoseconds, an `int64`; the largest or
smallest duration when `t - u` does not fit. -/
def Time.Sub (t u : Time) : Int :=
  let d := t.unixNano - u.unixNano
  if d < -(2 ^ 63) then -(2 ^ 63) else if 2 ^ 63 - 1 < d then 2 ^ 63 - 1 else d

section Code

variable {F : Type} [GoFloat64 F]

/-- `Duration.Hours`: `hour := d / Hour; nsec := d % Hour;
return float64(hour) + float64(nsec)/(60*60*1e9)`. -/
def Duration.Hours (d : Int) : F :=
  let hour := d.tdiv Hour
  let nsec := d.tmod Hour
  GoFloat64.add (GoFloat64.ofInt64 hour)
    (GoFloat64.div (GoFloat64.ofInt64 nsec) (GoFloat64.ofInt64 (60 * 60 * 1000000000)))

/-- The body of the loop of `clientsActiveDuringLastHour`, at the entry
`(ip, lastMsgAt)`; `now` is the reading of the clock taken by `time.Since`. -/
def clientsActiveStep (now : Time) (r : GoMap Time) (e : String × Nat) : GoMap Time :=
  let t := Time.Unix (int64 e.2)
  let ago := now.Sub t
  if GoFloat64.lt (Duration.Hours ago : F) (GoFloat64.ofInt64 1) = true then r.set e.1 t else r

/-- `clientsActiveDuringLastHour`, with the clock reading `now`: the receiver as the
call leaves it, and the map returned. -/
def clientsActiveDuringLastHour (now : Time) (ms : metrics F) : metrics F × GoMap Time :=
  (ms, ms.lastMsgAtPerClient.foldl (clientsActiveStep (F := F) now) [])

/-- The body of the first loop of `withClients`. -/
def nbRPCsStep (ms : metrics F) (m : Metric F) : metrics F :=
  let ip := labelValue "ip" m.label
  { ms with nbRPCsPerClient := ms.nbRPCsPerClient.set ip (uint64 (Counter.GetValue m.counter)) }

/-- The body of the second loop of `withClients`. -/
def lastMsgAtStep (ms : metrics F) (m : Metric F) : metrics F :=
  let ip := labelValue "ip" m.label
  { ms with lastMsgAtPerClient := ms.lastMsgAtPerClient.set ip (uint64 (Gauge.GetValue m.gauge)) }

def withClients (metricsFamilies : Families F) (ms : metrics F) : metrics F :=
  let ms := { ms with nbRPCsPerClient := [] }
  let clientsMetrics := MetricFamily.GetMetric (metricsFamilies "immudb_number_of_rpcs_per_client")
  let ms := { ms with nbClients := clientsMetrics.length }
  let ms := clientsMetrics.foldl nbRPCsStep ms
  let ms := { ms with lastMsgAtPerClient := [] }
  let lastMsgAtMetrics :=
    MetricFamily.GetMetric (metricsFamilies "immudb_clients_last_message_at_unix_seconds")
  lastMsgAtMetrics.foldl lastMsgAtStep ms

/-- `withDBInfo`; `none` when one of the four `GetMetric()[0]` is out of range. -/
def withDBInfo (metricsFamilies : Families F) (ms : metrics F) : Option (metrics F) := do
  let lsmSizeMetric ← (MetricFamily.GetMetric (metricsFamilies "immudb_lsm_size_bytes"))[0]?
  let lsmBytes := Untyped.GetValue lsmSizeMetric.untyped
  let vlogSizeMetric ← (MetricFamily.GetMetric (metricsFamilies "immudb_vlog_size_bytes"))[0]?
  let vlogBytes := Untyped.GetValue vlogSizeMetric.untyped
  let ms := { ms with db := { ms.db with lsmBytes := uint64 lsmBytes } }
  let ms := { ms with db := { ms.db with vlogBytes := uint64 vlogBytes } }
  let ms := { ms with db := { ms.db with totalBytes := uint64 (GoFloat64.add lsmBytes vlogBytes) } }
  let ms :=
    match findLabel "database" lsmSizeMetric.label with
    | some v => { ms with db := { ms.db with name := v } }
    | none => ms
  let entriesMetric ←
    (MetricFamily.GetMetric (metricsFamilies "immudb_number_of_stored_entries"))[0]?
  let ms := { ms with db := { ms.db with nbEntries := uint64 (Counter.GetValue entriesMetric.counter) } }
  let uptimeMetric ← (MetricFamily.GetMetric (metricsFamilies "immudb_uptime_hours"))[0]?
  pure { ms with db := { ms.db with uptimeHours := Counter.GetValue uptimeMetric.counter } }

/-- The body of the loop of `withDuration`. -/
def withDurationStep (ms : metrics F) (m : Metric F) : metrics F :=
  let method := labelValue "grpc_method" m.label
  let h := m.histogram
  let c := Histogram.GetSampleCount h
  let td := Histogram.GetSampleSum h
  let ad : F := if c ≠ 0 then GoFloat64.div td (GoFloat64.ofUInt64 c) else GoFloat64.zero
  let d : rpcDuration F := { method := method, counter := c, totalDuration := td, avgDuration := ad }
  let ms := { ms with durationRPCsByMethod := ms.durationRPCsByMethod.set method d }
  let ms :=
    if (readers.get? method).isSome then
      { ms with reads := { ms.reads with
          counter := (ms.reads.counter + 1) % 2 ^ 64
          duration := GoFloat64.add ms.reads.duration d.avgDuration } }
    else ms
  if (writers.get? method).isSome then
    { ms with writes := { ms.writes with
        counter := (ms.writes.counter + d.counter) % 2 ^ 64
        duration := GoFloat64.add ms.writes.duration d.totalDuration } }
  else ms

def withDuration (metricsFamilies : Families F) (ms : metrics F) : metrics F :=
  let ms := { ms with durationRPCsByMethod := [] }
  let ms :=
    (MetricFamily.GetMetric (metricsFamilies "grpc_server_handling_seconds")).foldl
      withDurationStep ms
  let ms :=
    if ms.reads.counter > 0 then
      { ms with reads := { ms.reads with
          avgDuration := GoFloat64.div ms.reads.duration (GoFloat64.ofUInt64 ms.reads.counter) } }
    else ms
  if ms.writes.counter > 0 then
    { ms with writes := { ms.writes with
        avgDuration := GoFloat64.div ms.writes.duration (GoFloat64.ofUInt64 ms.writes.counter) } }
  else ms

/-- `*family.GetMetric()[0].GetGauge().Value`; `none` when the family has no first
sample, the sample no gauge, or the gauge no value. -/
def firstGaugeValue (family : MetricFamily F) : Option F := do
  let m ← family.metric[0]?
  let g ← m.gauge
  g.value

/-- One `if family := (*metricsFamilies)[name]; family != nil { field = ... }` of
`withMemStats`; `put` stores the field. -/
def withMemStat (metricsFamilies : Families F) (name : String)
    (put : memstats → Nat → memstats) (ms : metrics F) : Option (metrics F) :=
  match metricsFamilies name with
  | some family => do
    let v ← firstGaugeValue family
    pure { ms with memstats := put ms.memstats (uint64 v) }
  | none => pure ms

/-- `withMemStats`; `none` when a family that is present has no first sample with a
gauge value. -/
def withMemStats (metricsFamilies : Families F) (ms : metrics F) : Option (metrics F) := do
  let ms ← withMemStat metricsFamilies "go_memstats_sys_bytes"
    (fun s v => { s with sysBytes := v }) ms
  let ms ← withMemStat metricsFamilies "go_memstats_heap_alloc_bytes"
    (fun s v => { s with heapAllocBytes := v }) ms
  let ms ← withMemStat metricsFamilies "go_memstats_heap_idle_bytes"
    (fun s v => { s with heapIdleBytes := v }) ms
  let ms ← withMemStat metricsFamilies "go_memstats_heap_inuse_bytes"
    (fun s v => { s with heapInUseBytes := v }) ms
  withMemStat metricsFamilies "go_memstats_stack_inuse_bytes"
    (fun s v => { s with stackInUseBytes := v }) ms

def populateFrom (metricsFamilies : Families F) (ms : metrics F) : Option (metrics F) := do
  let ms ← withDBInfo metricsFamilies ms
  let ms := withClients metricsFamilies ms
  let ms := withDuration metricsFamilies ms
  withMemStats metricsFamilies ms

end Code

/-! ## What the loop of `withDuration` does to each field -/

section Duration

variable {F : Type} [GoFloat64 F]

/-- The method name that the loop of `withDuration` reads off a sample. -/
def methodName (m : Metric F) : String := labelValue "grpc_method" m.label

/-- The `rpcDuration` that the loop of `withDuration` builds from a sample. -/
def rpcOf (m : Metric F) : rpcDuration F :=
  { method := methodName m
    counter := Histogram.GetSampleCount m.histogram
    totalDuration := Histogram.GetSampleSum m.histogram
    avgDuration :=
      if Histogram.GetSampleCount m.histogram ≠ 0 then
        GoFloat64.div (Histogram.GetSampleSum m.histogram)
          (GoFloat64.ofUInt64 (Histogram.GetSampleCount m.histogram))
      else GoFloat64.zero }

/-- Membership in the table `readers`, the test `_, ok := readers[method]`. -/
def isReader (method : String) : Bool := (readers.get? method).isSome

/-- Membership in the table `writers`, the test `_, ok := writers[method]`. -/
def isWriter (method : String) : Bool := (writers.get? method).isSome

/-- The effect of one sample on `ms.reads`. -/
def readsStep (r : operations F) (m : Metric F) : operations F :=
  if isReader (methodName m) then
    { r with counter := (r.counter + 1) % 2 ^ 64
             duration := GoFloat64.add r.duration (rpcOf m).avgDuration }
  else r

/-- The effect of one sample on `ms.writes`. -/
def writesStep (w : operations F) (m : Metric F) : operations F :=
  if isWriter (methodName m) then
    { w with counter := (w.counter + (rpcOf m).counter) % 2 ^ 64
             duration := GoFloat64.add w.duration (rpcOf m).totalDuration }
  else w

/-- The guarded average that closes `withDuration`. -/
def finish (o : operations F) : operations F :=
  if o.counter > 0 then
    { o with avgDuration := GoFloat64.div o.duration (GoFloat64.ofUInt64 o.counter) }
  else o

/-- The samples of `grpc_server_handling_seconds`. -/
def durationSamples (metricsFamilies : Families F) : List (Metric F) :=
  MetricFamily.GetMetric (metricsFamilies "grpc_server_handling_seconds")

end Duration

/-! ## What `withMemStats` does to the field `memstats` -/

section MemStats

variable {F : Type} [GoFloat64 F]

/-- One `if` of `withMemStats`, on the field `memstats` alone. -/
def memStat (metricsFamilies : Families F) (name : String)
    (put : memstats → Nat → memstats) (s : memstats) : Option memstats :=
  match metricsFamilies name with
  | some family => (firstGaugeValue family).map (fun v => put s (uint64 v))
  | none => some s

/-- The five `if`s of `withMemStats`, on the field `memstats` alone. -/
def memStatsOf (metricsFamilies : Families F) (s : memstats) : Option memstats := do
  let s ← memStat metricsFamilies "go_memstats_sys_bytes"
    (fun s v => { s with sysBytes := v }) s
  let s ← memStat metricsFamilies "go_memstats_heap_alloc_bytes"
    (fun s v => { s with heapAllocBytes := v }) s
  let s ← memStat metricsFamilies "go_memstats_heap_idle_bytes"
    (fun s v => { s with heapIdleBytes := v }) s
  let s ← memStat metricsFamilies "go_memstats_heap_inuse_bytes"
    (fun s v => { s with heapInUseBytes := v }) s
  memStat metricsFamilies "go_memstats_stack_inuse_bytes"
    (fun s v => { s with stackInUseBytes := v }) s

end MemStats

/-! ## Notions the statements use -/

section Notions

variable {F : Type} [GoFloat64 F]

/-- The samples of `grpc_server_handling_seconds` whose method name is in `readers`,
in family order. -/
def readSamples (metricsFamilies : Families F) : List (Metric F) :=
  (durationSamples metricsFamilies).filter (fun m => isReader (methodName m))

/-- The samples of `grpc_server_handling_seconds` whose method name is in `writers`,
in family order. -/
def writeSamples (metricsFamilies : Families F) : List (Metric F) :=
  (durationSamples metricsFamilies).filter (fun m => isWriter (methodName m))

/-- The method names of the read-classified samples, one entry for each sample. -/
def readMethodNames (metricsFamilies : Families F) : List String :=
  (readSamples metricsFamilies).map methodName

/-- A `float64` sum accumulated with `+=` from `start`, in list order. -/
def sumFrom (start : F) (xs : List F) : F := xs.foldl GoFloat64.add start

end Notions

/-! ## Concrete inputs -/

/-- A sample of `grpc_server_handling_seconds` with its `grpc_method` label. -/
def histogramSample (method : String) (count : Nat) (sum : ℚ) : Metric ℚ :=
  { label := [⟨some "grpc_method", some method⟩], histogram := some ⟨some count, some sum⟩ }

/-- A scrape with `immudb_lsm_size_bytes{database="db1"}` of value `lsm`,
`immudb_vlog_size_bytes` of value `vlog`, 7 stored entries, 3 hours of uptime and
the given samples of `grpc_server_handling_seconds`. -/
def scrape (lsm vlog : ℚ) (samples : List (Metric ℚ)) : Families ℚ := fun name =>
  if name = "immudb_lsm_size_bytes" then
    some ⟨[{ label := [⟨some "database", some "db1"⟩], untyped := some ⟨some lsm⟩ }]⟩
  else if name = "immudb_vlog_size_bytes" then some ⟨[{ untyped := some ⟨some vlog⟩ }]⟩
  else if name = "immudb_number_of_stored_entries" then some ⟨[{ counter := some ⟨some 7⟩ }]⟩
  else if name = "immudb_uptime_hours" then some ⟨[{ counter := some ⟨some 3⟩ }]⟩
  else if name = "grpc_server_handling_seconds" then some ⟨samples⟩
  else none

/-- Two samples of the read method `Get` (say, of two services). -/
def twoGets : Families ℚ :=
  scrape 100 50 [histogramSample "Get" 10 5, histogramSample "Get" 4 2]

/-- The scenario of the specification: `Get` with count 10 and sum 5.0, `Set` with
count 4 and sum 2.0. -/
def getAndSet : Families ℚ :=
  scrape 100 50 [histogramSample "Get" 10 5, histogramSample "Set" 4 2]

/-- The `db` field that `scrape 100 50 _` produces. -/
def scrapeDB : dbInfo ℚ :=
  { name := "db1", lsmBytes := 100, vlogBytes := 50, totalBytes := 150, nbEntries := 7,
    uptimeHours := 3 }

/-- The metrics that `populateFrom` produces from `twoGets`. -/
def twoGetsResult : metrics ℚ :=
  { durationRPCsByMethod := [("Get", ⟨"Get", 4, 2, 1 / 2⟩)]
    reads := ⟨2, 1, 1 / 2⟩
    writes := ⟨0, 0, 0⟩
    nbClients := 0
    nbRPCsPerClient := []
    lastMsgAtPerClient := []
    db := scrapeDB
    memstats := ⟨0, 0, 0, 0, 0⟩ }

/-- The metrics that `populateFrom` produces from `getAndSet`. -/
def getAndSetResult : metrics ℚ :=
  { durationRPCsByMethod := [("Set", ⟨"Set", 4, 2, 1 / 2⟩), ("Get", ⟨"Get", 10, 5, 1 / 2⟩)]
    reads := ⟨1, 1 / 2, 1 / 2⟩
    writes := ⟨4, 2, 1 / 2⟩
    nbClients := 0
    nbRPCsPerClient := []
    lastMsgAtPerClient := []
    db := scrapeDB
    memstats := ⟨0, 0, 0, 0, 0⟩ }

/-- A scrape whose two size samples both have the value one half. -/
def halves : Families ℚ := scrape (1 / 2) (1 / 2) []

/-- The `db` field that `withDBInfo` produces from `halves`. -/
def halvesDB : dbInfo ℚ :=
  { name := "db1", lsmBytes := 0, vlogBytes := 0, totalBytes := 1, nbEntries := 7,
    uptimeHours := 3 }

/-- The part of a prior state of the receiver that a run of `populateFrom` can
still see: `reads`, `writes`, `db.name` and `memstats`; every other field is
zero-valued. -/
def carriedOver {F : Type} [GoFloat64 F] (s : metrics F) : metrics F :=
  { (metrics.zero : metrics F) with
    reads := s.reads
    writes := s.writes
    db := { (metrics.zero : metrics F).db with name := s.db.name }
    memstats := s.memstats }

/-- The metrics that a second `populateFrom` on `getAndSet` produces from
`getAndSetResult`. -/
def getAndSetTwice : metrics ℚ :=
  { getAndSetResult with reads := ⟨2, 1, 1 / 2⟩, writes := ⟨8, 4, 1 / 2⟩ }

/-- A used receiver whose `reads`, `writes`, `db.name` and `memstats` are
zero-valued. -/
def staleMetrics : metrics ℚ :=
  { durationRPCsByMethod := [("Scan", ⟨"Scan", 3, 6, 2⟩)]
    reads := ⟨0, 0, 0⟩
    writes := ⟨0, 0, 0⟩
    nbClients := 2
    nbRPCsPerClient := [("10.0.0.1", 5), ("10.0.0.2", 9)]
    lastMsgAtPerClient := [("10.0.0.1", 1600000000)]
    db := { name := "", lsmBytes := 1, vlogBytes := 2, totalBytes := 3, nbEntries := 4,
            uptimeHours := 5 }
    memstats := ⟨0, 0, 0, 0, 0⟩ }

/-- The scrape `scrape 100 50 []` with the `database` label taken off the sample of
`immudb_lsm_size_bytes`; it has no `go_memstats_*` family. -/
def unlabelled : Families ℚ := fun name =>
  if name = "immudb_lsm_size_bytes" then some ⟨[{ untyped := some ⟨some 100⟩ }]⟩
  else scrape 100 50 [] name

/-- A used receiver that still carries a database name and a memory figure. -/
def leftover : metrics ℚ :=
  { (metrics.zero : metrics ℚ) with
    db := { (metrics.zero : metrics ℚ).db with name := "old" }
    memstats := ⟨5, 0, 0, 0, 0⟩ }

/-- The invariant of an aggregate: the average is `duration / counter` when the
counter is positive and zero when the counter is zero. -/
def operations.Invariant {F : Type} [GoFloat64 F] (o : operations F) : Prop :=
  (o.counter > 0 → o.avgDuration = GoFloat64.div o.duration (GoFloat64.ofUInt64 o.counter)) ∧
    (o.counter = 0 → o.avgDuration = GoFloat64.zero)

/-- A scrape with a sample of the method `Backup`, which is in neither table, between
the two samples of `getAndSet`. -/
def withUnknown : Families ℚ :=
  scrape 100 50
    [histogramSample "Get" 10 5, histogramSample "Backup" 3 9, histogramSample "Set" 4 2]

/-- A scrape in which the method `Scan` has a sample without observations. -/
def withIdle : Families ℚ :=
  scrape 100 50 [histogramSample "Get" 4 2, histogramSample "Scan" 0 0]

/-- The average of one sample as the loop of `withDuration` computes it:
`sum / count`, or zero when the count is zero. -/
def sampleAverage {F : Type} [GoFloat64 F] (m : Metric F) : F :=
  if Histogram.GetSampleCount m.histogram ≠ 0 then
    GoFloat64.div (Histogram.GetSampleSum m.histogram)
      (GoFloat64.ofUInt64 (Histogram.GetSampleCount m.histogram))
  else GoFloat64.zero

/-- The guarded quotient `total / float64(n)` of a `uint64` count `n`: zero when `n`
is zero. -/
def guardedQuotient {F : Type} [GoFloat64 F] (total : F) (n : Nat) : F :=
  if 0 < n then GoFloat64.div total (GoFloat64.ofUInt64 n) else GoFloat64.zero

/-- Two write methods whose counts, `2^64 - 1` and 2, sum to `2^64 + 1`; their sums
are 8 and 4. -/
def overflowingWrites : Families ℚ :=
  scrape 100 50 [histogramSample "Set" (2 ^ 64 - 1) 8, histogramSample "ZAdd" 2 4]

/-- The 23 method names of the specification's Read class. -/
def readNames : List String :=
  ["ByIndex", "ByIndexSV", "Consistency", "Count", "CurrentRoot", "Dump", "Get", "GetBatch",
   "GetBatchSV", "GetSV", "Health", "History", "HistorySV", "IScan", "IScanSV", "Inclusion",
   "Login", "SafeGet", "SafeGetSV", "Scan", "ScanSV", "ZScan", "ZScanSV"]

/-- The 10 method names of the specification's Write class. -/
def writeNames : List String :=
  ["Reference", "SafeReference", "SafeSet", "SafeSetSV", "SafeZAdd", "Set", "SetBatch",
   "SetBatchSV", "SetSV", "ZAdd"]

/-- A clock reading: 10000 seconds after the Unix epoch. -/
def sampleNow : Time := ⟨10000, 0⟩

/-- Clients last seen 1800, 3700 and exactly 3600 seconds before `sampleNow`, one
whose timestamp does not fit an `int64`, and one whose timestamp fits but makes the
second counter of `time.Unix` wrap around. -/
def sampleClients : metrics ℚ :=
  { (metrics.zero : metrics ℚ) with
    lastMsgAtPerClient :=
      [("10.0.0.1", 8200), ("10.0.0.2", 6300), ("10.0.0.3", 6400), ("10.0.0.4", 2 ^ 63),
       ("10.0.0.5", 2 ^ 63 - 1024)] }

/-- The `float64` operations `ops` with the division replaced by `quotient`. -/
def withDivision {F : Type} (ops : GoFloat64 F) (quotient : F → F → F) : GoFloat64 F :=
  { ops with div := quotient }

/-- A division on the rationals that answers 12345 when the divisor is zero. -/
def trappingDivision (x y : ℚ) : ℚ := if y = 0 then 12345 else x / y

/-! ## Notions for the client mappings -/

/-- The key that the loops of `withClients` read off a sample: the value of its `ip`
label, the empty string when it has none. -/
def clientKey {F : Type} (m : Metric F) : String := labelValue "ip" m.label

/-- The samples of `immudb_number_of_rpcs_per_client`. -/
def rpcSamples {F : Type} (metricsFamilies : Families F) : List (Metric F) :=
  MetricFamily.GetMetric (metricsFamilies "immudb_number_of_rpcs_per_client")

/-- The samples of `immudb_clients_last_message_at_unix_seconds`. -/
def lastMsgSamples {F : Type} (metricsFamilies : Families F) : List (Metric F) :=
  MetricFamily.GetMetric (metricsFamilies "immudb_clients_last_message_at_unix_seconds")

/-- A sample of `immudb_number_of_rpcs_per_client` with its `ip` label. -/
def rpcSample (ip : String) (count : ℚ) : Metric ℚ :=
  { label := [⟨some "ip", some ip⟩], counter := some ⟨some count⟩ }

/-- A sample of `immudb_clients_last_message_at_unix_seconds` with its `ip` label. -/
def lastMsgSample (ip : String) (unixSeconds : ℚ) : Metric ℚ :=
  { label := [⟨some "ip", some ip⟩], gauge := some ⟨some unixSeconds⟩ }

/-- The scrape `getAndSet` with the given samples of the two client families. -/
def withClientFamilies (rpcs lastMsgs : List (Metric ℚ)) : Families ℚ := fun name =>
  if name = "immudb_number_of_rpcs_per_client" then some ⟨rpcs⟩
  else if name = "immudb_clients_last_message_at_unix_seconds" then some ⟨lastMsgs⟩
  else getAndSet name

/-- Three clients with distinct `ip` labels. -/
def threeClients : Families ℚ :=
  withClientFamilies
    [rpcSample "10.0.0.1" 5, rpcSample "10.0.0.2" 9, rpcSample "10.0.0.3" 1]
    [lastMsgSample "10.0.0.1" 1600000000]

/-- A client that has two samples, and a sample without `ip` label. -/
def repeatedClient : Families ℚ :=
  withClientFamilies
    [rpcSample "10.0.0.1" 5, { counter := some ⟨some 2⟩ }, rpcSample "10.0.0.1" 8]
    [lastMsgSample "10.0.0.1" 1600000000, lastMsgSample "10.0.0.1" 1600000060]

/-! ## Notions for the memory figures -/

/-- What one `if` of `withMemStats` leaves in its field: the old value when the family
is absent, the converted gauge value of the first sample when the family is present,
and `none` when the family is present without a first sample carrying a gauge
value. -/
def pickGauge {F : Type} [GoFloat64 F] (metricsFamilies : Families F) (name : String)
    (old : Nat) : Option Nat :=
  match metricsFamilies name with
  | some family => (firstGaugeValue family).map uint64
  | none => some old

/-- The five families of `withMemStats`, each with the field it fills. -/
def memStatsFields : List (String × (memstats → Nat)) :=
  [("go_memstats_sys_bytes", memstats.sysBytes),
   ("go_memstats_heap_alloc_bytes", memstats.heapAllocBytes),
   ("go_memstats_heap_idle_bytes", memstats.heapIdleBytes),
   ("go_memstats_heap_inuse_bytes", memstats.heapInUseBytes),
   ("go_memstats_stack_inuse_bytes", memstats.stackInUseBytes)]

/-- A family of one sample with a gauge value. -/
def gaugeFamily (value : ℚ) : MetricFamily ℚ := ⟨[{ gauge := some ⟨some value⟩ }]⟩

/-- The scrape `getAndSet` with `go_memstats_sys_bytes` present but without samples
and `go_memstats_heap_alloc_bytes` of value 7; the other three families are absent. -/
def brokenSysBytes : Families ℚ := fun name =>
  if name = "go_memstats_sys_bytes" then some ⟨[]⟩
  else if name = "go_memstats_heap_alloc_bytes" then some (gaugeFamily 7)
  else getAndSet name

/-- The scrape `getAndSet` with `go_memstats_sys_bytes` of value 4096 and
`go_memstats_stack_inuse_bytes` of value 512; the other three families are absent. -/
def someMemStats : Families ℚ := fun name =>
  if name = "go_memstats_sys_bytes" then some (gaugeFamily 4096)
  else if name = "go_memstats_stack_inuse_bytes" then some (gaugeFamily 512)
  else getAndSet name

/-- The four families of `withDBInfo`. -/
def dbInfoFamilies : List String :=
  ["immudb_lsm_size_bytes", "immudb_vlog_size_bytes", "immudb_number_of_stored_entries",
   "immudb_uptime_hours"]

/-- The memory figures that `withMemStats` produces from `someMemStats`. -/
def someMemStatsResult : metrics ℚ :=
  { (metrics.zero : metrics ℚ) with memstats := ⟨4096, 0, 0, 0, 512⟩ }

/-- An aggregate whose average is up to date: where the counter is positive,
`avgDuration` is `duration / counter`.  The zero value is settled, and so is every
aggregate that `withDuration` leaves. -/
def operations.Settled {F : Type} [GoFloat64 F] (o : operations F) : Prop :=
  o.counter > 0 → o.avgDuration = GoFloat64.div o.duration (GoFloat64.ofUInt64 o.counter)

/-- The scrape without any family. -/
def noFamilies : Families ℚ := fun _ => none

/-- A receiver whose `reads` has one call of total duration 5 and an average that was
never computed. -/
def staleAverage : metrics ℚ :=
  { (metrics.zero : metrics ℚ) with reads := ⟨1, 5, 0⟩ }

/-! ## Notions for the order of the passes -/

section PassOrder

variable {F : Type} [GoFloat64 F]

/-- What `withDBInfo` does to the field `db` alone. -/
def dbInfoOf (metricsFamilies : Families F) (db : dbInfo F) : Option (dbInfo F) :=
  (withDBInfo metricsFamilies { (metrics.zero : metrics F) with db := db }).map (fun a => a.db)

/-- The four passes in the order of `populateFrom`, each as a step that may fault. -/
def passes (metricsFamilies : Families F) : List (metrics F → Option (metrics F)) :=
  [withDBInfo metricsFamilies,
   fun ms => some (withClients metricsFamilies ms),
   fun ms => some (withDuration metricsFamilies ms),
   withMemStats metricsFamilies]

/-- Running steps one after the other on a receiver; a fault ends the run. -/
def runPasses : List (metrics F → Option (metrics F)) → metrics F → Option (metrics F)
  | [], ms => some ms
  | pass :: rest, ms => (pass ms).bind (runPasses rest)

end PassOrder

/-! ## The three-way classification -/

/-- The classes of the specification's Metric Catalog. -/
inductive MethodClass where
  | Read
  | Write
  | Unclassified
deriving DecidableEq

/-- The classification of the specification: Read for a name in `readers`, Write for a
name in `writers`, Unclassified for any other. -/
def classify (method : String) : MethodClass :=
  if isReader method then MethodClass.Read
  else if isWriter method then MethodClass.Write
  else MethodClass.Unclassified

/-- The body of the loop of `withDuration` written as a three-way choice on the class
of the method, to compare with `withDurationStep` and its two `if` blocks. -/
def threeWayStep {F : Type} [GoFloat64 F] (ms : metrics F) (m : Metric F) : metrics F :=
  let ms := { ms with durationRPCsByMethod := ms.durationRPCsByMethod.set (methodName m) (rpcOf m) }
  match classify (methodName m) with
  | MethodClass.Read =>
    { ms with reads := { ms.reads with
        counter := (ms.reads.counter + 1) % 2 ^ 64
        duration := GoFloat64.add ms.reads.duration (rpcOf m).avgDuration } }
  | MethodClass.Write =>
    { ms with writes := { ms.writes with
        counter := (ms.writes.counter + (rpcOf m).counter) % 2 ^ 64
        duration := GoFloat64.add ms.writes.duration (rpcOf m).totalDuration } }
  | MethodClass.Unclassified => ms

/-- The keys of `durationRPCsByMethod` that are in `readers`. -/
def readKeys {F : Type} (ms : metrics F) : List String :=
  (GoMap.keys ms.durationRPCsByMethod).filter isReader

/-! # Results -/

section Results

variable {F : Type} [GoFloat64 F]

/-! ## Go maps: reading after writing -/

theorem GoMap.get?_cons {V : Type} (m : GoMap V) (x k : String) (v : V) :
    GoMap.get? ((x, v) :: m) k = if x = k then some v else GoMap.get? m k := by
  simp only [GoMap.get?]

theorem GoMap.get?_isSome_iff {V : Type} (m : GoMap V) (k : String) :
    (GoMap.get? m k).isSome = true ↔ k ∈ GoMap.keys m := by
  induction m with
  | nil => simp [GoMap.get?, GoMap.keys]
  | cons e m ih =>
    obtain ⟨k', v⟩ := e
    unfold GoMap.get?
    by_cases h : k' = k
    · simp [h, GoMap.keys]
    · simp only [h, if_false, ih, GoMap.keys, List.map_cons, List.mem_cons]
      constructor
      · intro hk; exact Or.inr hk
      · rintro (hk | hk)
        · exact absurd hk.symm h
        · exact hk

theorem GoMap.get?_eq_none_of_not_mem_keys {V : Type} (m : GoMap V) (k : String)
    (h : k ∉ GoMap.keys m) : GoMap.get? m k = none := by
  cases hg : GoMap.get? m k with
  | none => rfl
  | some v => exact absurd ((GoMap.get?_isSome_iff m k).1 (by rw [hg]; rfl)) h

theorem GoMap.get?_filter_ne {V : Type} (m : GoMap V) (k k' : String) (h : k' ≠ k) :
    GoMap.get? (m.filter (fun e => decide (e.1 ≠ k))) k' = GoMap.get? m k' := by
  induction m with
  | nil => rfl
  | cons e m ih =>
    obtain ⟨x, v⟩ := e
    by_cases hx : x = k
    · have hxk' : ¬ x = k' := fun hxk' => h (hxk'.symm.trans hx)
      rw [List.filter_cons_of_neg (by simp [hx]), ih, GoMap.get?_cons, if_neg hxk']
    · rw [List.filter_cons_of_pos (by simp [hx]), GoMap.get?_cons, GoMap.get?_cons, ih]

theorem GoMap.get?_set_self {V : Type} (m : GoMap V) (k : String) (v : V) :
    GoMap.get? (GoMap.set m k v) k = some v := by
  rw [GoMap.set, GoMap.get?_cons, if_pos rfl]

theorem GoMap.get?_set_ne {V : Type} (m : GoMap V) (k k' : String) (v : V) (h : k' ≠ k) :
    GoMap.get? (GoMap.set m k v) k' = GoMap.get? m k' := by
  have hk : ¬ k = k' := fun hk => h hk.symm
  rw [GoMap.set, GoMap.get?_cons, if_neg hk]
  exact GoMap.get?_filter_ne m k k' h

/-- After the loop `for _, x := range l { d[key(x)] = val(x) }`, the entry of a key
is the value of the last `x` with that key. -/
theorem GoMap.get?_foldl_set_last {V A : Type} (key : A → String) (val : A → V)
    (pre post : List A) (x : A) (d : GoMap V)
    (hlast : ∀ y ∈ post, key y ≠ key x) :
    GoMap.get? ((pre ++ x :: post).foldl (fun d y => GoMap.set d (key y) (val y)) d) (key x)
      = some (val x) := by
  rw [List.foldl_append, List.foldl_cons]
  generalize (pre.foldl (fun d y => GoMap.set d (key y) (val y)) d) = d'
  have hpost : ∀ (post : List A) (d₀ : GoMap V), (∀ y ∈ post, key y ≠ key x) →
      GoMap.get? (post.foldl (fun d y => GoMap.set d (key y) (val y)) d₀) (key x)
        = GoMap.get? d₀ (key x) := by
    intro post
    induction post with
    | nil => intro d₀ _; rfl
    | cons y post ih =>
      intro d₀ hy
      rw [List.foldl_cons, ih _ (fun z hz => hy z (List.mem_cons_of_mem _ hz))]
      exact GoMap.get?_set_ne d₀ (key y) (key x) (val y)
        (fun h => hy y (List.mem_cons_self _ _) h.symm)
  rw [hpost post _ hlast]
  exact GoMap.get?_set_self d' (key x) (val x)

theorem GoMap.mem_keys_set {V : Type} (m : GoMap V) (k x : String) (v : V) :
    x ∈ GoMap.keys (GoMap.set m k v) ↔ x = k ∨ x ∈ GoMap.keys m := by
  rw [← GoMap.get?_isSome_iff, ← GoMap.get?_isSome_iff]
  by_cases h : x = k
  · subst h; simp [GoMap.get?_set_self]
  · rw [GoMap.get?_set_ne m k x v h]; simp [h]

/-- After the loop `for _, x := range l { d[key(x)] = val(x) }`, the keys are those
that were there and the keys of the elements of `l`. -/
theorem GoMap.mem_keys_foldl_set {V A : Type} (key : A → String) (val : A → V)
    (l : List A) (d : GoMap V) (k : String) :
    k ∈ GoMap.keys (l.foldl (fun d y => GoMap.set d (key y) (val y)) d) ↔
      k ∈ GoMap.keys d ∨ ∃ y ∈ l, key y = k := by
  induction l generalizing d with
  | nil => simp
  | cons y l ih =>
    rw [List.foldl_cons, ih, GoMap.mem_keys_set]
    constructor
    · rintro ((h | h) | ⟨z, hz, hk⟩)
      · exact Or.inr ⟨y, List.mem_cons_self _ _, h.symm⟩
      · exact Or.inl h
      · exact Or.inr ⟨z, List.mem_cons_of_mem _ hz, hk⟩
    · rintro (h | ⟨z, hz, hk⟩)
      · exact Or.inl (Or.inr h)
      · rcases List.mem_cons.1 hz with rfl | hz
        · exact Or.inl (Or.inl hk.symm)
        · exact Or.inr ⟨z, hz, hk⟩

/-! ## The four passes, field by field -/

theorem withDurationStep_eq (ms : metrics F) (m : Metric F) :
    withDurationStep ms m =
      { ms with
        durationRPCsByMethod := ms.durationRPCsByMethod.set (methodName m) (rpcOf m)
        reads := readsStep ms.reads m
        writes := writesStep ms.writes m } := by
  unfold withDurationStep readsStep writesStep isReader isWriter
  simp only [methodName, rpcOf]
  split_ifs <;> rfl

theorem foldl_withDurationStep (l : List (Metric F)) (ms : metrics F) :
    l.foldl withDurationStep ms =
      { ms with
        durationRPCsByMethod :=
          l.foldl (fun d m => GoMap.set d (methodName m) (rpcOf m)) ms.durationRPCsByMethod
        reads := l.foldl readsStep ms.reads
        writes := l.foldl writesStep ms.writes } := by
  induction l generalizing ms with
  | nil => rfl
  | cons m l ih => rw [List.foldl_cons, ih, withDurationStep_eq]; rfl

/-- The pass `withDuration` rewrites three fields, each from its own previous value
and the samples. -/
theorem withDuration_eq (metricsFamilies : Families F) (ms : metrics F) :
    withDuration metricsFamilies ms =
      { ms with
        durationRPCsByMethod :=
          (durationSamples metricsFamilies).foldl
            (fun d m => GoMap.set d (methodName m) (rpcOf m)) []
        reads := finish ((durationSamples metricsFamilies).foldl readsStep ms.reads)
        writes := finish ((durationSamples metricsFamilies).foldl writesStep ms.writes) } := by
  unfold withDuration finish durationSamples
  simp only [foldl_withDurationStep]
  split_ifs <;> rfl

theorem foldl_nbRPCsStep (l : List (Metric F)) (ms : metrics F) :
    l.foldl nbRPCsStep ms =
      { ms with
        nbRPCsPerClient :=
          l.foldl (fun d m => GoMap.set d (labelValue "ip" m.label)
            (uint64 (Counter.GetValue m.counter))) ms.nbRPCsPerClient } := by
  induction l generalizing ms with
  | nil => rfl
  | cons m l ih => rw [List.foldl_cons, ih]; rfl

theorem foldl_lastMsgAtStep (l : List (Metric F)) (ms : metrics F) :
    l.foldl lastMsgAtStep ms =
      { ms with
        lastMsgAtPerClient :=
          l.foldl (fun d m => GoMap.set d (labelValue "ip" m.label)
            (uint64 (Gauge.GetValue m.gauge))) ms.lastMsgAtPerClient } := by
  induction l generalizing ms with
  | nil => rfl
  | cons m l ih => rw [List.foldl_cons, ih]; rfl

/-- The pass `withClients` rewrites three fields, from the samples alone. -/
theorem withClients_eq (metricsFamilies : Families F) (ms : metrics F) :
    withClients metricsFamilies ms =
      { ms with
        nbClients :=
          (MetricFamily.GetMetric (metricsFamilies "immudb_number_of_rpcs_per_client")).length
        nbRPCsPerClient :=
          (MetricFamily.GetMetric (metricsFamilies "immudb_number_of_rpcs_per_client")).foldl
            (fun d m => GoMap.set d (labelValue "ip" m.label)
              (uint64 (Counter.GetValue m.counter))) []
        lastMsgAtPerClient :=
          (MetricFamily.GetMetric
              (metricsFamilies "immudb_clients_last_message_at_unix_seconds")).foldl
            (fun d m => GoMap.set d (labelValue "ip" m.label)
              (uint64 (Gauge.GetValue m.gauge))) [] } := by
  unfold withClients
  simp only [foldl_nbRPCsStep, foldl_lastMsgAtStep]

/-- The pass `withDBInfo` reads and writes the field `db` only. -/
theorem withDBInfo_eq (metricsFamilies : Families F) (ms : metrics F) :
    withDBInfo metricsFamilies ms =
      (withDBInfo metricsFamilies { (metrics.zero : metrics F) with db := ms.db }).map
        (fun a => { ms with db := a.db }) := by
  unfold withDBInfo
  simp only [Option.bind_eq_bind, Option.pure_def]
  cases (MetricFamily.GetMetric (metricsFamilies "immudb_lsm_size_bytes"))[0]? with
  | none => rfl
  | some m1 =>
    cases (MetricFamily.GetMetric (metricsFamilies "immudb_vlog_size_bytes"))[0]? with
    | none => rfl
    | some m2 =>
      cases (MetricFamily.GetMetric (metricsFamilies "immudb_number_of_stored_entries"))[0]? with
      | none => rfl
      | some m3 =>
        cases (MetricFamily.GetMetric (metricsFamilies "immudb_uptime_hours"))[0]? with
        | none => rfl
        | some m4 =>
          simp only [Option.some_bind]
          cases findLabel "database" m1.label <;> rfl

theorem withMemStat_eq (metricsFamilies : Families F) (name : String)
    (put : memstats → Nat → memstats) (ms : metrics F) :
    withMemStat metricsFamilies name put ms =
      (memStat metricsFamilies name put ms.memstats).map
        (fun s => { ms with memstats := s }) := by
  unfold withMemStat memStat
  cases metricsFamilies name with
  | none => rfl
  | some family =>
    simp only [Option.bind_eq_bind, Option.pure_def]
    cases firstGaugeValue family <;> rfl

/-- The pass `withMemStats` reads and writes the field `memstats` only. -/
theorem withMemStats_eq (metricsFamilies : Families F) (ms : metrics F) :
    withMemStats metricsFamilies ms =
      (memStatsOf metricsFamilies ms.memstats).map (fun s => { ms with memstats := s }) := by
  unfold withMemStats memStatsOf
  simp only [withMemStat_eq, Option.bind_eq_bind, Option.map_eq_bind, Option.bind_assoc,
    Function.comp_def, Option.some_bind]

/-- A run of `populateFrom` is the four passes side by side, each on its own fields
of the receiver. -/
theorem populateFrom_eq (metricsFamilies : Families F) (ms : metrics F) :
    populateFrom metricsFamilies ms =
      (withDBInfo metricsFamilies ms).bind fun a =>
        (withMemStats metricsFamilies ms).map fun b =>
          { durationRPCsByMethod := (withDuration metricsFamilies ms).durationRPCsByMethod
            reads := (withDuration metricsFamilies ms).reads
            writes := (withDuration metricsFamilies ms).writes
            nbClients := (withClients metricsFamilies ms).nbClients
            nbRPCsPerClient := (withClients metricsFamilies ms).nbRPCsPerClient
            lastMsgAtPerClient := (withClients metricsFamilies ms).lastMsgAtPerClient
            db := a.db
            memstats := b.memstats } := by
  unfold populateFrom
  simp only [Option.bind_eq_bind]
  rw [withDBInfo_eq]
  cases withDBInfo metricsFamilies { (metrics.zero : metrics F) with db := ms.db } with
  | none => rfl
  | some a =>
    simp only [Option.map_some', Option.some_bind, withMemStats_eq, withDuration_eq,
      withClients_eq]
    cases memStatsOf metricsFamilies ms.memstats <;> rfl

theorem withDBInfo_db_congr (metricsFamilies : Families F) (ms₁ ms₂ : metrics F)
    (hname : ms₁.db.name = ms₂.db.name) :
    (withDBInfo metricsFamilies ms₁).map (fun a => a.db) =
      (withDBInfo metricsFamilies ms₂).map (fun a => a.db) := by
  unfold withDBInfo
  simp only [Option.bind_eq_bind, Option.pure_def]
  cases (MetricFamily.GetMetric (metricsFamilies "immudb_lsm_size_bytes"))[0]? with
  | none => rfl
  | some m1 =>
    cases (MetricFamily.GetMetric (metricsFamilies "immudb_vlog_size_bytes"))[0]? with
    | none => rfl
    | some m2 =>
      cases (MetricFamily.GetMetric (metricsFamilies "immudb_number_of_stored_entries"))[0]? with
      | none => rfl
      | some m3 =>
        cases (MetricFamily.GetMetric (metricsFamilies "immudb_uptime_hours"))[0]? with
        | none => rfl
        | some m4 =>
          simp only [Option.some_bind, Option.map_some']
          cases findLabel "database" m1.label with
          | none => simp only [hname]
          | some v => rfl

/-- A run of `populateFrom` sees of the prior state of its receiver the fields
`reads`, `writes`, `db.name` and `memstats` only. -/
theorem populateFrom_carriedOver (metricsFamilies : Families F) (s : metrics F) :
    populateFrom metricsFamilies s = populateFrom metricsFamilies (carriedOver s) := by
  have hdb := withDBInfo_db_congr metricsFamilies s (carriedOver s) rfl
  rw [populateFrom_eq, populateFrom_eq]
  simp only [withMemStats_eq, withDuration_eq, withClients_eq]
  cases h1 : withDBInfo metricsFamilies s with
  | none =>
    cases h2 : withDBInfo metricsFamilies (carriedOver s) with
    | none => rfl
    | some a2 => rw [h1, h2] at hdb; simp at hdb
  | some a1 =>
    cases h2 : withDBInfo metricsFamilies (carriedOver s) with
    | none => rw [h1, h2] at hdb; simp at hdb
    | some a2 =>
      rw [h1, h2] at hdb
      simp only [Option.map_some', Option.some.injEq] at hdb
      have hm : (carriedOver s).memstats = s.memstats := rfl
      have hr : (carriedOver s).reads = s.reads := rfl
      have hw : (carriedOver s).writes = s.writes := rfl
      simp only [Option.some_bind, hdb, hm, hr, hw]
      cases memStatsOf metricsFamilies s.memstats <;> rfl

/-! ## The two aggregates after the loop -/

theorem foldl_readsStep_counter (l : List (Metric F)) (r : operations F)
    (hr : r.counter < 2 ^ 64) :
    (l.foldl readsStep r).counter =
      (r.counter + (l.filter (fun m => isReader (methodName m))).length) % 2 ^ 64 := by
  induction l generalizing r with
  | nil => simpa using (Nat.mod_eq_of_lt hr).symm
  | cons m l ih =>
    rw [List.foldl_cons]
    by_cases h : isReader (methodName m) = true
    · rw [ih _ (by simp only [readsStep, h, if_true]; exact Nat.mod_lt _ (by norm_num))]
      simp only [readsStep, h, if_true, List.filter_cons_of_pos, List.length_cons]
      omega
    · rw [ih _ (by simp only [readsStep, h]; exact hr)]
      simp [readsStep, h]

theorem foldl_readsStep_duration (l : List (Metric F)) (r : operations F) :
    (l.foldl readsStep r).duration =
      sumFrom r.duration
        ((l.filter (fun m => isReader (methodName m))).map (fun m => (rpcOf m).avgDuration)) := by
  induction l generalizing r with
  | nil => rfl
  | cons m l ih =>
    rw [List.foldl_cons, ih]
    by_cases h : isReader (methodName m) = true
    · simp [readsStep, h, sumFrom]
    · simp [readsStep, h]

theorem foldl_readsStep_avgDuration (l : List (Metric F)) (r : operations F) :
    (l.foldl readsStep r).avgDuration = r.avgDuration := by
  induction l generalizing r with
  | nil => rfl
  | cons m l ih =>
    rw [List.foldl_cons, ih]
    by_cases h : isReader (methodName m) = true
    · simp [readsStep, h]
    · simp [readsStep, h]

theorem foldl_writesStep_counter (l : List (Metric F)) (w : operations F)
    (hw : w.counter < 2 ^ 64) :
    (l.foldl writesStep w).counter =
      (w.counter +
        ((l.filter (fun m => isWriter (methodName m))).map
          (fun m => Histogram.GetSampleCount m.histogram)).sum) % 2 ^ 64 := by
  induction l generalizing w with
  | nil => simpa using (Nat.mod_eq_of_lt hw).symm
  | cons m l ih =>
    rw [List.foldl_cons]
    by_cases h : isWriter (methodName m) = true
    · rw [ih _ (by simp only [writesStep, h, if_true]; exact Nat.mod_lt _ (by norm_num))]
      simp only [writesStep, h, if_true, List.filter_cons_of_pos, List.map_cons, List.sum_cons,
        rpcOf]
      omega
    · rw [ih _ (by simp only [writesStep, h]; exact hw)]
      simp [writesStep, h]

theorem foldl_writesStep_duration (l : List (Metric F)) (w : operations F) :
    (l.foldl writesStep w).duration =
      sumFrom w.duration
        ((l.filter (fun m => isWriter (methodName m))).map
          (fun m => Histogram.GetSampleSum m.histogram)) := by
  induction l generalizing w with
  | nil => rfl
  | cons m l ih =>
    rw [List.foldl_cons, ih]
    by_cases h : isWriter (methodName m) = true
    · simp [writesStep, h, sumFrom, rpcOf]
    · simp [writesStep, h]

theorem foldl_writesStep_avgDuration (l : List (Metric F)) (w : operations F) :
    (l.foldl writesStep w).avgDuration = w.avgDuration := by
  induction l generalizing w with
  | nil => rfl
  | cons m l ih =>
    rw [List.foldl_cons, ih]
    by_cases h : isWriter (methodName m) = true
    · simp [writesStep, h]
    · simp [writesStep, h]

theorem finish_counter (o : operations F) : (finish o).counter = o.counter := by
  unfold finish; split_ifs <;> rfl

theorem finish_duration (o : operations F) : (finish o).duration = o.duration := by
  unfold finish; split_ifs <;> rfl

theorem finish_avgDuration (o : operations F) (havg : o.avgDuration = GoFloat64.zero) :
    (finish o).avgDuration = guardedQuotient o.duration o.counter := by
  unfold finish guardedQuotient
  by_cases h : o.counter > 0
  · rw [if_pos h, if_pos h]
  · rw [if_neg h, if_neg h]; exact havg

theorem finish_invariant (o : operations F) (havg : o.avgDuration = GoFloat64.zero) :
    (finish o).Invariant := by
  unfold finish
  by_cases h : o.counter > 0
  · rw [if_pos h]
    exact ⟨fun _ => rfl,
      fun h0 => absurd (show o.counter = 0 from h0) (Nat.pos_iff_ne_zero.1 h)⟩
  · rw [if_neg h]
    exact ⟨fun hpos => absurd hpos h, fun _ => havg⟩

/-- What a completed `populateFrom` leaves in the fields of `withDuration`. -/
theorem populateFrom_duration_fields (metricsFamilies : Families F) (ms ms' : metrics F)
    (h : populateFrom metricsFamilies ms = some ms') :
    ms'.reads = finish ((durationSamples metricsFamilies).foldl readsStep ms.reads) ∧
    ms'.writes = finish ((durationSamples metricsFamilies).foldl writesStep ms.writes) ∧
    ms'.durationRPCsByMethod =
      (durationSamples metricsFamilies).foldl
        (fun d m => GoMap.set d (methodName m) (rpcOf m)) [] := by
  rw [populateFrom_eq] at h
  cases ha : withDBInfo metricsFamilies ms with
  | none => rw [ha] at h; simp at h
  | some a =>
    cases hb : withMemStats metricsFamilies ms with
    | none => rw [ha, hb] at h; simp at h
    | some b =>
      rw [ha, hb] at h
      simp only [Option.some_bind, Option.map_some', Option.some.injEq] at h
      subst h
      simp [withDuration_eq]

theorem readMethodNames_subset {F : Type} (metricsFamilies : Families F) :
    readMethodNames metricsFamilies ⊆ GoMap.keys readers := by
  intro k hk
  simp only [readMethodNames, readSamples, List.mem_map, List.mem_filter] at hk
  obtain ⟨m, ⟨_, hm⟩, rfl⟩ := hk
  exact (GoMap.get?_isSome_iff readers _).1 hm

end Results

/-! ## The divisions that are made -/

section Division

variable {F : Type} (ops : GoFloat64 F) (quotient : F → F → F)

theorem rpcOf_division
    (hquotient : ∀ (x : F) (c : Nat), 0 < c →
      quotient x (ops.ofUInt64 c) = ops.div x (ops.ofUInt64 c))
    (m : Metric F) :
    @rpcOf F (withDivision ops quotient) m = @rpcOf F ops m := by
  unfold rpcOf
  by_cases hc : @Histogram.GetSampleCount F m.histogram = 0
  · simp only [hc, ne_eq, not_true_eq_false, if_false]
    rfl
  · simp only [ne_eq, hc, not_false_eq_true, if_true]
    exact congrArg
      (fun a : F => ({ method := methodName m
                       counter := @Histogram.GetSampleCount F m.histogram
                       totalDuration := @Histogram.GetSampleSum F ops m.histogram
                       avgDuration := a } : rpcDuration F))
      (hquotient _ _ (Nat.pos_of_ne_zero hc))

theorem readsStep_division
    (hquotient : ∀ (x : F) (c : Nat), 0 < c →
      quotient x (ops.ofUInt64 c) = ops.div x (ops.ofUInt64 c)) :
    @readsStep F (withDivision ops quotient) = @readsStep F ops := by
  funext r m
  unfold readsStep
  rw [rpcOf_division ops quotient hquotient m]
  rfl

theorem writesStep_division
    (hquotient : ∀ (x : F) (c : Nat), 0 < c →
      quotient x (ops.ofUInt64 c) = ops.div x (ops.ofUInt64 c)) :
    @writesStep F (withDivision ops quotient) = @writesStep F ops := by
  funext w m
  unfold writesStep
  rw [rpcOf_division ops quotient hquotient m]
  rfl

theorem finish_division
    (hquotient : ∀ (x : F) (c : Nat), 0 < c →
      quotient x (ops.ofUInt64 c) = ops.div x (ops.ofUInt64 c))
    (o : operations F) :
    @finish F (withDivision ops quotient) o = @finish F ops o := by
  unfold finish
  by_cases h : o.counter > 0
  · rw [if_pos h, if_pos h]
    exact congrArg (fun a : F => ({ o with avgDuration := a } : operations F))
      (hquotient _ _ h)
  · rw [if_neg h, if_neg h]

/-- The pass `withDuration` divides by `float64(c)` for counts `c > 0` only: with any
other division that agrees with `/` on such divisors the result is the same. -/
theorem withDuration_division
    (hquotient : ∀ (x : F) (c : Nat), 0 < c →
      quotient x (ops.ofUInt64 c) = ops.div x (ops.ofUInt64 c))
    (metricsFamilies : Families F) (ms : metrics F) :
    @withDuration F (withDivision ops quotient) metricsFamilies ms =
      @withDuration F ops metricsFamilies ms := by
  rw [@withDuration_eq F (withDivision ops quotient), @withDuration_eq F ops]
  simp only [rpcOf_division ops quotient hquotient, readsStep_division ops quotient hquotient,
    writesStep_division ops quotient hquotient, finish_division ops quotient hquotient]

/-- No pass of `populateFrom` divides by anything but `float64(c)` with `c > 0`. -/
theorem populateFrom_division
    (hquotient : ∀ (x : F) (c : Nat), 0 < c →
      quotient x (ops.ofUInt64 c) = ops.div x (ops.ofUInt64 c))
    (metricsFamilies : Families F) (ms : metrics F) :
    @populateFrom F (withDivision ops quotient) metricsFamilies ms =
      @populateFrom F ops metricsFamilies ms := by
  rw [@populateFrom_eq F (withDivision ops quotient), @populateFrom_eq F ops,
    withDuration_division ops quotient hquotient]
  rfl

end Division

/-! ## Exact arithmetic, and time -/

/-- Exact rational arithmetic has the properties of `GoFloat64.Exact`. -/
instance ratExact : GoFloat64.Exact ℚ where
  toUInt64_ofUInt64 n _ := by
    show (((n : ℚ).num).tdiv (((n : ℚ).den : Nat) : Int)).toNat = n
    simp
  add_ofUInt64 a b _ := by
    show ((a : ℚ) + (b : ℚ)) = ((a + b : Nat) : ℚ)
    push_cast; rfl
  hours_lt_one d _ _ := by
    show decide ((((d.tdiv Hour : Int) : ℚ) + ((d.tmod Hour : Int) : ℚ) / ((Hour : Int) : ℚ))
      < ((1 : Int) : ℚ)) = true ↔ d < Hour
    have hH : (0 : ℚ) < ((Hour : Int) : ℚ) := by norm_num [Hour]
    have hd : (((d.tdiv Hour : Int) : ℚ) + ((d.tmod Hour : Int) : ℚ) / ((Hour : Int) : ℚ))
        = (d : ℚ) / ((Hour : Int) : ℚ) := by
      have h := Int.tdiv_add_tmod d Hour
      have h' : ((Hour : Int) : ℚ) * ((d.tdiv Hour : Int) : ℚ) + ((d.tmod Hour : Int) : ℚ)
          = (d : ℚ) := by exact_mod_cast h
      field_simp
      linarith
    rw [decide_eq_true_iff, hd, div_lt_iff₀ hH]
    simp only [Int.cast_one, one_mul]
    exact_mod_cast Iff.rfl

theorem int64_of_lt (t : Nat) (h : t < 2 ^ 63) : int64 t = (t : Int) := by
  unfold int64
  have h1 : t % 2 ^ 64 = t := Nat.mod_eq_of_lt (by omega)
  rw [h1, if_pos h]

/-- A timestamp below `2^63 - unixToInternal` denotes itself. -/
theorem Time.Unix_int64_of_lt (t : Nat) (h : (t : Int) < 2 ^ 63 - unixToInternal) :
    Time.Unix (int64 t) = ⟨(t : Int), 0⟩ := by
  unfold unixToInternal at h
  rw [int64_of_lt t (by omega)]
  unfold Time.Unix wrapInt64 unixToInternal
  simp only [Time.mk.injEq, and_true]
  omega

/-- A `uint64` timestamp from `2^63 - unixToInternal` on denotes a time before the Unix
epoch: the conversion `int64` or the second counter of `time.Unix` wraps around. -/
theorem Time.Unix_int64_of_ge (t : Nat) (h : 2 ^ 63 - unixToInternal ≤ (t : Int))
    (h64 : t < 2 ^ 64) : Time.Unix (int64 t) = ⟨(t : Int) - 2 ^ 64, 0⟩ := by
  unfold unixToInternal at h
  have hmod : t % 2 ^ 64 = t := Nat.mod_eq_of_lt h64
  unfold Time.Unix wrapInt64 unixToInternal int64
  rw [hmod]
  simp only [Time.mk.injEq, and_true]
  split_ifs <;> omega

theorem Time.Sub_lt_Hour (t u : Time) : t.Sub u < Hour ↔ t.unixNano - u.unixNano < Hour := by
  unfold Time.Sub Hour
  simp only
  split_ifs <;> omega

theorem Time.Sub_range (t u : Time) : -(2 ^ 63) ≤ t.Sub u ∧ t.Sub u < 2 ^ 63 := by
  unfold Time.Sub
  simp only
  split_ifs <;> omega

section Clock

variable {F : Type} [GoFloat64 F]

/-- The test `ago.Hours() < 1` of the loop, as a proposition. -/
theorem active_iff [GoFloat64.Exact F] (now : Time) (t : Nat) :
    GoFloat64.lt (Duration.Hours (now.Sub (Time.Unix (int64 t))) : F) (GoFloat64.ofInt64 1) = true
      ↔ now.unixNano - (Time.Unix (int64 t)).unixNano < Hour := by
  rw [← Time.Sub_lt_Hour]
  exact GoFloat64.Exact.hours_lt_one _ (Time.Sub_range _ _).1 (Time.Sub_range _ _).2

theorem get?_foldl_clientsActiveStep (now : Time) (l : GoMap Nat) (r : GoMap Time)
    (hkeys : (GoMap.keys l).Nodup) (ip : String) :
    GoMap.get? (l.foldl (clientsActiveStep (F := F) now) r) ip =
      match GoMap.get? l ip with
      | some t =>
        if GoFloat64.lt (Duration.Hours (now.Sub (Time.Unix (int64 t))) : F)
            (GoFloat64.ofInt64 1) = true
        then some (Time.Unix (int64 t)) else GoMap.get? r ip
      | none => GoMap.get? r ip := by
  induction l generalizing r with
  | nil => rfl
  | cons e l ih =>
    obtain ⟨k, t⟩ := e
    have hnd : (GoMap.keys l).Nodup := (List.nodup_cons.1 hkeys).2
    have hk : k ∉ GoMap.keys l := (List.nodup_cons.1 hkeys).1
    rw [List.foldl_cons, ih _ hnd, GoMap.get?_cons]
    by_cases hip : k = ip
    · subst hip
      rw [if_pos rfl, GoMap.get?_eq_none_of_not_mem_keys l k hk]
      simp only [clientsActiveStep]
      split_ifs
      · exact GoMap.get?_set_self _ _ _
      · rfl
    · rw [if_neg hip]
      have hstep : GoMap.get? (clientsActiveStep (F := F) now r (k, t)) ip = GoMap.get? r ip := by
        simp only [clientsActiveStep]
        split_ifs
        · exact GoMap.get?_set_ne _ _ _ _ (fun h => hip h.symm)
        · rfl
      rw [hstep]

end Clock

/-! ## Two runs on concrete scrapes -/

theorem populateFrom_twoGets : populateFrom twoGets metrics.zero = some twoGetsResult := by
  decide!

theorem populateFrom_getAndSet : populateFrom getAndSet metrics.zero = some getAndSetResult := by
  decide!

/-! ## Go maps: the loop that fills a map -/

theorem GoMap.keys_set_of_not_mem {V : Type} (m : GoMap V) (k : String) (v : V)
    (h : k ∉ GoMap.keys m) : GoMap.keys (GoMap.set m k v) = k :: GoMap.keys m := by
  have hfilter : m.filter (fun e => decide (e.1 ≠ k)) = m := by
    rw [List.filter_eq_self]
    intro e he
    have hne : e.1 ≠ k := fun heq => h (heq ▸ List.mem_map_of_mem Prod.fst he)
    simpa using hne
  simp only [GoMap.set, GoMap.keys, List.map_cons, hfilter]

theorem GoMap.nodup_keys_set {V : Type} (m : GoMap V) (k : String) (v : V)
    (h : (GoMap.keys m).Nodup) : (GoMap.keys (GoMap.set m k v)).Nodup := by
  have hkeys : GoMap.keys (GoMap.set m k v) =
      k :: (GoMap.keys m).filter (fun x => decide (x ≠ k)) := by
    simp only [GoMap.set, GoMap.keys, List.map_cons, List.filter_map]
    rfl
  rw [hkeys, List.nodup_cons]
  refine ⟨?_, h.filter _⟩
  intro hk
  have := (List.mem_filter.1 hk).2
  simp at this

/-- The loop `for _, x := range l { d[key(x)] = val(x) }` keeps the keys distinct. -/
theorem GoMap.nodup_keys_foldl_set {V A : Type} (key : A → String) (val : A → V)
    (l : List A) (d : GoMap V) (h : (GoMap.keys d).Nodup) :
    (GoMap.keys (l.foldl (fun d y => GoMap.set d (key y) (val y)) d)).Nodup := by
  induction l generalizing d with
  | nil => exact h
  | cons y l ih => rw [List.foldl_cons]; exact ih _ (GoMap.nodup_keys_set d _ _ h)

/-- When the elements of `l` have distinct keys, none of them in `d`, the loop adds
one entry for each element. -/
theorem GoMap.keys_foldl_set_of_nodup {V A : Type} (key : A → String) (val : A → V)
    (l : List A) (d : GoMap V) (hl : (l.map key).Nodup)
    (hd : ∀ y ∈ l, key y ∉ GoMap.keys d) :
    GoMap.keys (l.foldl (fun d y => GoMap.set d (key y) (val y)) d) =
      (l.map key).reverse ++ GoMap.keys d := by
  induction l generalizing d with
  | nil => simp
  | cons y l ih =>
    rw [List.map_cons, List.nodup_cons] at hl
    have hy : key y ∉ GoMap.keys d := hd y (List.mem_cons_self _ _)
    rw [List.foldl_cons, ih _ hl.2, GoMap.keys_set_of_not_mem d _ _ hy]
    · simp
    · intro z hz
      rw [GoMap.keys_set_of_not_mem d _ _ hy, List.mem_cons, not_or]
      exact ⟨fun h => hl.1 (h ▸ List.mem_map_of_mem key hz),
        hd z (List.mem_cons_of_mem _ hz)⟩

/-- Among the elements of `l` with the key `k`, if there is one, there is a last. -/
theorem exists_last_with_key {A : Type} (key : A → String) (l : List A) (k : String)
    (h : ∃ y ∈ l, key y = k) :
    ∃ pre x post, l = pre ++ x :: post ∧ key x = k ∧ ∀ y ∈ post, key y ≠ k := by
  induction l with
  | nil => obtain ⟨y, hy, _⟩ := h; exact absurd hy (List.not_mem_nil _)
  | cons a l ih =>
    by_cases hl : ∃ y ∈ l, key y = k
    · obtain ⟨pre, x, post, hlist, hx, hpost⟩ := ih hl
      exact ⟨a :: pre, x, post, by rw [hlist]; rfl, hx, hpost⟩
    · obtain ⟨y, hy, hk⟩ := h
      rcases List.mem_cons.1 hy with rfl | hy'
      · exact ⟨[], y, l, rfl, hk, fun z hz hzk => hl ⟨z, hz, hzk⟩⟩
      · exact absurd ⟨y, hy', hk⟩ hl

/-- After the loop `for _, x := range l { d[key(x)] = val(x) }` on an empty map, the
entry of `k` is `e` exactly when `e` is the value of the last element of `l` with the
key `k`. -/
theorem GoMap.get?_foldl_set_eq_some_iff {V A : Type} (key : A → String) (val : A → V)
    (l : List A) (k : String) (e : V) :
    GoMap.get? (l.foldl (fun d y => GoMap.set d (key y) (val y)) []) k = some e ↔
      ∃ pre x post, l = pre ++ x :: post ∧ key x = k ∧ (∀ y ∈ post, key y ≠ k) ∧
        e = val x := by
  constructor
  · intro h
    have hk : k ∈ GoMap.keys (l.foldl (fun d y => GoMap.set d (key y) (val y)) []) :=
      (GoMap.get?_isSome_iff _ k).1 (by rw [h]; rfl)
    rw [GoMap.mem_keys_foldl_set] at hk
    rcases hk with hk | hk
    · exact absurd hk (List.not_mem_nil _)
    · obtain ⟨pre, x, post, hlist, hx, hpost⟩ := exists_last_with_key key l k hk
      refine ⟨pre, x, post, hlist, hx, hpost, ?_⟩
      have hlast := GoMap.get?_foldl_set_last key val pre post x []
        (fun y hy => by rw [hx]; exact hpost y hy)
      rw [← hlist, hx, h] at hlast
      exact Option.some.inj hlast
  · rintro ⟨pre, x, post, hlist, hx, hpost, he⟩
    rw [hlist, ← hx, he]
    exact GoMap.get?_foldl_set_last key val pre post x []
      (fun y hy => by rw [hx]; exact hpost y hy)

/-! ## The client mappings -/

section ClientFields

variable {F : Type} [GoFloat64 F]

/-- What a completed `populateFrom` leaves in the fields of `withClients`. -/
theorem populateFrom_client_fields (metricsFamilies : Families F) (ms ms' : metrics F)
    (h : populateFrom metricsFamilies ms = some ms') :
    ms'.nbClients = (withClients metricsFamilies ms).nbClients ∧
      ms'.nbRPCsPerClient = (withClients metricsFamilies ms).nbRPCsPerClient ∧
      ms'.lastMsgAtPerClient = (withClients metricsFamilies ms).lastMsgAtPerClient := by
  rw [populateFrom_eq] at h
  cases ha : withDBInfo metricsFamilies ms with
  | none => rw [ha] at h; simp at h
  | some a =>
    cases hb : withMemStats metricsFamilies ms with
    | none => rw [ha, hb] at h; simp at h
    | some b =>
      rw [ha, hb] at h
      simp only [Option.some_bind, Option.map_some', Option.some.injEq] at h
      subst h
      exact ⟨rfl, rfl, rfl⟩

theorem withClients_nbRPCsPerClient (metricsFamilies : Families F) (ms : metrics F) :
    (withClients metricsFamilies ms).nbRPCsPerClient =
      (rpcSamples metricsFamilies).foldl
        (fun d m => GoMap.set d (clientKey m) (uint64 (Counter.GetValue m.counter))) [] := by
  rw [withClients_eq]; rfl

theorem withClients_lastMsgAtPerClient (metricsFamilies : Families F) (ms : metrics F) :
    (withClients metricsFamilies ms).lastMsgAtPerClient =
      (lastMsgSamples metricsFamilies).foldl
        (fun d m => GoMap.set d (clientKey m) (uint64 (Gauge.GetValue m.gauge))) [] := by
  rw [withClients_eq]; rfl

theorem withClients_nbClients (metricsFamilies : Families F) (ms : metrics F) :
    (withClients metricsFamilies ms).nbClients = (rpcSamples metricsFamilies).length := by
  rw [withClients_eq]; rfl

end ClientFields

/-! ## The memory figures, field by field -/

section MemStatsFields

variable {F : Type} [GoFloat64 F]

theorem memStat_eq_pickGauge (metricsFamilies : Families F) (name : String)
    (put : memstats → Nat → memstats) (get : memstats → Nat) (s : memstats)
    (hput : put s (get s) = s) :
    memStat metricsFamilies name put s =
      (pickGauge metricsFamilies name (get s)).map (put s) := by
  unfold memStat pickGauge
  cases metricsFamilies name with
  | none => simp [hput]
  | some family =>
    show Option.map _ _ = Option.map _ (Option.map _ _)
    rw [Option.map_map]
    rfl

/-- The five `if`s of `withMemStats` fill the five fields one by one. -/
theorem memStatsOf_eq (metricsFamilies : Families F) (s : memstats) :
    memStatsOf metricsFamilies s =
      (pickGauge metricsFamilies "go_memstats_sys_bytes" s.sysBytes).bind fun a =>
      (pickGauge metricsFamilies "go_memstats_heap_alloc_bytes" s.heapAllocBytes).bind fun b =>
      (pickGauge metricsFamilies "go_memstats_heap_idle_bytes" s.heapIdleBytes).bind fun c =>
      (pickGauge metricsFamilies "go_memstats_heap_inuse_bytes" s.heapInUseBytes).bind fun d =>
      (pickGauge metricsFamilies "go_memstats_stack_inuse_bytes" s.stackInUseBytes).map fun e =>
        (⟨a, b, c, d, e⟩ : memstats) := by
  unfold memStatsOf
  simp only [Option.bind_eq_bind]
  rw [memStat_eq_pickGauge metricsFamilies _ _ memstats.sysBytes s rfl]
  cases pickGauge metricsFamilies "go_memstats_sys_bytes" s.sysBytes with
  | none => rfl
  | some a =>
    simp only [Option.map_some', Option.some_bind]
    rw [memStat_eq_pickGauge metricsFamilies _ _ memstats.heapAllocBytes _ rfl]
    cases pickGauge metricsFamilies "go_memstats_heap_alloc_bytes" s.heapAllocBytes with
    | none => rfl
    | some b =>
      simp only [Option.map_some', Option.some_bind]
      rw [memStat_eq_pickGauge metricsFamilies _ _ memstats.heapIdleBytes _ rfl]
      cases pickGauge metricsFamilies "go_memstats_heap_idle_bytes" s.heapIdleBytes with
      | none => rfl
      | some c =>
        simp only [Option.map_some', Option.some_bind]
        rw [memStat_eq_pickGauge metricsFamilies _ _ memstats.heapInUseBytes _ rfl]
        cases pickGauge metricsFamilies "go_memstats_heap_inuse_bytes" s.heapInUseBytes with
        | none => rfl
        | some d =>
          simp only [Option.map_some', Option.some_bind]
          rw [memStat_eq_pickGauge metricsFamilies _ _ memstats.stackInUseBytes _ rfl]

/-- A run of `withMemStats` completes with the fields `s'` exactly when each of its
five `if`s yields the corresponding field. -/
theorem memStatsOf_eq_some_iff (metricsFamilies : Families F) (s s' : memstats) :
    memStatsOf metricsFamilies s = some s' ↔
      ∀ p ∈ memStatsFields, pickGauge metricsFamilies p.1 (p.2 s) = some (p.2 s') := by
  rw [memStatsOf_eq]
  simp only [memStatsFields, List.forall_mem_cons, List.not_mem_nil, false_imp_iff,
    imp_true_iff, forall_const, and_true]
  obtain ⟨a', b', c', d', e'⟩ := s'
  cases pickGauge metricsFamilies "go_memstats_sys_bytes" s.sysBytes <;>
  cases pickGauge metricsFamilies "go_memstats_heap_alloc_bytes" s.heapAllocBytes <;>
  cases pickGauge metricsFamilies "go_memstats_heap_idle_bytes" s.heapIdleBytes <;>
  cases pickGauge metricsFamilies "go_memstats_heap_inuse_bytes" s.heapInUseBytes <;>
  cases pickGauge metricsFamilies "go_memstats_stack_inuse_bytes" s.stackInUseBytes <;>
  simp

theorem pickGauge_eq_none_iff (metricsFamilies : Families F) (name : String) (old : Nat) :
    pickGauge metricsFamilies name old = none ↔
      ∃ family, metricsFamilies name = some family ∧ firstGaugeValue family = none := by
  unfold pickGauge
  cases metricsFamilies name with
  | none => simp
  | some family => cases firstGaugeValue family <;> simp

/-- A run of `withMemStats` faults exactly when one of the five families is present
without a first sample carrying a gauge value. -/
theorem memStatsOf_eq_none_iff (metricsFamilies : Families F) (s : memstats) :
    memStatsOf metricsFamilies s = none ↔
      ∃ p ∈ memStatsFields, ∃ family, metricsFamilies p.1 = some family ∧
        firstGaugeValue family = none := by
  have hchain : memStatsOf metricsFamilies s = none ↔
      pickGauge metricsFamilies "go_memstats_sys_bytes" s.sysBytes = none ∨
      pickGauge metricsFamilies "go_memstats_heap_alloc_bytes" s.heapAllocBytes = none ∨
      pickGauge metricsFamilies "go_memstats_heap_idle_bytes" s.heapIdleBytes = none ∨
      pickGauge metricsFamilies "go_memstats_heap_inuse_bytes" s.heapInUseBytes = none ∨
      pickGauge metricsFamilies "go_memstats_stack_inuse_bytes" s.stackInUseBytes = none := by
    rw [memStatsOf_eq]
    cases pickGauge metricsFamilies "go_memstats_sys_bytes" s.sysBytes <;>
    cases pickGauge metricsFamilies "go_memstats_heap_alloc_bytes" s.heapAllocBytes <;>
    cases pickGauge metricsFamilies "go_memstats_heap_idle_bytes" s.heapIdleBytes <;>
    cases pickGauge metricsFamilies "go_memstats_heap_inuse_bytes" s.heapInUseBytes <;>
    cases pickGauge metricsFamilies "go_memstats_stack_inuse_bytes" s.stackInUseBytes <;>
    simp
  rw [hchain]
  simp only [pickGauge_eq_none_iff, memStatsFields, List.exists_mem_cons_iff, List.not_mem_nil,
    false_and, exists_false, or_false]

end MemStatsFields

/-! ## When the storage pass faults -/

theorem getElem?_zero_eq_none_iff {F : Type} (metricsFamilies : Families F) (name : String) :
    (MetricFamily.GetMetric (metricsFamilies name))[0]? = none ↔
      metricsFamilies name = none ∨
        ∃ family, metricsFamilies name = some family ∧ family.metric = [] := by
  unfold MetricFamily.GetMetric
  cases metricsFamilies name with
  | none => simp
  | some family =>
    cases hmetric : family.metric with
    | nil => simp [hmetric]
    | cons m rest => simp [hmetric]

section DBInfoFaults

variable {F : Type} [GoFloat64 F]

/-- `withDBInfo` faults exactly when one of its four `GetMetric()[0]` is out of
range. -/
theorem withDBInfo_eq_none_iff (metricsFamilies : Families F) (ms : metrics F) :
    withDBInfo metricsFamilies ms = none ↔
      ∃ name ∈ dbInfoFamilies, (MetricFamily.GetMetric (metricsFamilies name))[0]? = none := by
  unfold withDBInfo
  simp only [Option.bind_eq_bind, Option.pure_def, dbInfoFamilies, List.exists_mem_cons_iff,
    List.not_mem_nil, false_and, exists_false, or_false]
  cases (MetricFamily.GetMetric (metricsFamilies "immudb_lsm_size_bytes"))[0]? <;>
  cases (MetricFamily.GetMetric (metricsFamilies "immudb_vlog_size_bytes"))[0]? <;>
  cases (MetricFamily.GetMetric (metricsFamilies "immudb_number_of_stored_entries"))[0]? <;>
  cases (MetricFamily.GetMetric (metricsFamilies "immudb_uptime_hours"))[0]? <;>
  simp

/-- What `withDBInfo` leaves in `db` when the four first samples exist. -/
theorem withDBInfo_eq_some (metricsFamilies : Families F) (ms : metrics F)
    (lsm vlog entries uptime : Metric F)
    (hlsm : (MetricFamily.GetMetric (metricsFamilies "immudb_lsm_size_bytes"))[0]? = some lsm)
    (hvlog : (MetricFamily.GetMetric (metricsFamilies "immudb_vlog_size_bytes"))[0]? = some vlog)
    (hentries :
      (MetricFamily.GetMetric (metricsFamilies "immudb_number_of_stored_entries"))[0]?
        = some entries)
    (huptime : (MetricFamily.GetMetric (metricsFamilies "immudb_uptime_hours"))[0]? = some uptime) :
    withDBInfo metricsFamilies ms =
      some { ms with
        db :=
          { name := (findLabel "database" lsm.label).getD ms.db.name
            lsmBytes := uint64 (Untyped.GetValue lsm.untyped)
            vlogBytes := uint64 (Untyped.GetValue vlog.untyped)
            totalBytes :=
              uint64 (GoFloat64.add (Untyped.GetValue lsm.untyped) (Untyped.GetValue vlog.untyped))
            nbEntries := uint64 (Counter.GetValue entries.counter)
            uptimeHours := Counter.GetValue uptime.counter } } := by
  unfold withDBInfo
  simp only [Option.bind_eq_bind, Option.pure_def, hlsm, hvlog, hentries, huptime,
    Option.some_bind]
  cases findLabel "database" lsm.label <;> rfl

/-- `populateFrom` faults exactly when `withDBInfo` or `withMemStats` does. -/
theorem populateFrom_eq_none_iff (metricsFamilies : Families F) (ms : metrics F) :
    populateFrom metricsFamilies ms = none ↔
      withDBInfo metricsFamilies ms = none ∨ withMemStats metricsFamilies ms = none := by
  rw [populateFrom_eq]
  cases withDBInfo metricsFamilies ms <;> cases withMemStats metricsFamilies ms <;> simp

end DBInfoFaults

/-! ## The passes commute -/

/-- Steps that commute two by two can be run in any order. -/
theorem runPasses_perm {F : Type} (l₁ l₂ : List (metrics F → Option (metrics F))) (h : l₁.Perm l₂)
    (hcomm : ∀ p ∈ l₁, ∀ q ∈ l₁, ∀ ms, (p ms).bind q = (q ms).bind p) (ms : metrics F) :
    runPasses l₁ ms = runPasses l₂ ms := by
  induction h generalizing ms with
  | nil => rfl
  | cons p _ ih =>
    simp only [runPasses]
    have hrest := fun s =>
      ih (fun a ha b hb => hcomm a (List.mem_cons_of_mem _ ha) b (List.mem_cons_of_mem _ hb)) s
    rw [funext hrest]
  | swap p q l =>
    simp only [runPasses, ← Option.bind_assoc]
    rw [hcomm q (by simp) p (by simp) ms]
  | trans h₁ _ ih₁ ih₂ =>
    rw [ih₁ hcomm ms]
    exact ih₂ (fun a ha b hb => hcomm a (h₁.mem_iff.2 ha) b (h₁.mem_iff.2 hb)) ms

section PassOrder

variable {F : Type} [GoFloat64 F]

theorem withDBInfo_eq_dbInfoOf (metricsFamilies : Families F) (ms : metrics F) :
    withDBInfo metricsFamilies ms =
      (dbInfoOf metricsFamilies ms.db).map (fun d => { ms with db := d }) := by
  rw [withDBInfo_eq, dbInfoOf, Option.map_map]
  rfl

theorem withDBInfo_withClients_comm (metricsFamilies : Families F) (ms : metrics F) :
    (withDBInfo metricsFamilies ms).bind (fun s => some (withClients metricsFamilies s)) =
      withDBInfo metricsFamilies (withClients metricsFamilies ms) := by
  rw [withDBInfo_eq_dbInfoOf metricsFamilies ms,
    withDBInfo_eq_dbInfoOf metricsFamilies (withClients metricsFamilies ms)]
  simp only [withClients_eq]
  cases dbInfoOf metricsFamilies ms.db <;> rfl

theorem withDBInfo_withDuration_comm (metricsFamilies : Families F) (ms : metrics F) :
    (withDBInfo metricsFamilies ms).bind (fun s => some (withDuration metricsFamilies s)) =
      withDBInfo metricsFamilies (withDuration metricsFamilies ms) := by
  rw [withDBInfo_eq_dbInfoOf metricsFamilies ms,
    withDBInfo_eq_dbInfoOf metricsFamilies (withDuration metricsFamilies ms)]
  simp only [withDuration_eq]
  cases dbInfoOf metricsFamilies ms.db <;> rfl

theorem withMemStats_withClients_comm (metricsFamilies : Families F) (ms : metrics F) :
    (withMemStats metricsFamilies ms).bind (fun s => some (withClients metricsFamilies s)) =
      withMemStats metricsFamilies (withClients metricsFamilies ms) := by
  rw [withMemStats_eq metricsFamilies ms,
    withMemStats_eq metricsFamilies (withClients metricsFamilies ms)]
  simp only [withClients_eq]
  cases memStatsOf metricsFamilies ms.memstats <;> rfl

theorem withMemStats_withDuration_comm (metricsFamilies : Families F) (ms : metrics F) :
    (withMemStats metricsFamilies ms).bind (fun s => some (withDuration metricsFamilies s)) =
      withMemStats metricsFamilies (withDuration metricsFamilies ms) := by
  rw [withMemStats_eq metricsFamilies ms,
    withMemStats_eq metricsFamilies (withDuration metricsFamilies ms)]
  simp only [withDuration_eq]
  cases memStatsOf metricsFamilies ms.memstats <;> rfl

theorem withClients_withDuration_comm (metricsFamilies : Families F) (ms : metrics F) :
    withDuration metricsFamilies (withClients metricsFamilies ms) =
      withClients metricsFamilies (withDuration metricsFamilies ms) := by
  simp only [withDuration_eq, withClients_eq]

theorem withDBInfo_withMemStats_comm (metricsFamilies : Families F) (ms : metrics F) :
    (withDBInfo metricsFamilies ms).bind (withMemStats metricsFamilies) =
      (withMemStats metricsFamilies ms).bind (withDBInfo metricsFamilies) := by
  have h1 : ∀ s : metrics F, withMemStats metricsFamilies s =
      (memStatsOf metricsFamilies s.memstats).map (fun x => { s with memstats := x }) :=
    withMemStats_eq metricsFamilies
  have h2 : ∀ s : metrics F, withDBInfo metricsFamilies s =
      (dbInfoOf metricsFamilies s.db).map (fun d => { s with db := d }) :=
    withDBInfo_eq_dbInfoOf metricsFamilies
  rw [h2 ms, h1 ms]
  cases hd : dbInfoOf metricsFamilies ms.db <;>
  cases hm : memStatsOf metricsFamilies ms.memstats <;>
  simp [h1, h2, hd, hm]

/-- Any two of the four passes commute. -/
theorem passes_commute (metricsFamilies : Families F) :
    ∀ p ∈ passes metricsFamilies, ∀ q ∈ passes metricsFamilies, ∀ ms : metrics F,
      (p ms).bind q = (q ms).bind p := by
  intro p hp q hq ms
  simp only [passes, List.mem_cons, List.mem_singleton, List.not_mem_nil, or_false] at hp hq
  rcases hp with rfl | rfl | rfl | rfl <;> rcases hq with rfl | rfl | rfl | rfl
  · rfl
  · simp only [Option.some_bind]; exact withDBInfo_withClients_comm _ _
  · simp only [Option.some_bind]; exact withDBInfo_withDuration_comm _ _
  · exact withDBInfo_withMemStats_comm _ _
  · simp only [Option.some_bind]; exact (withDBInfo_withClients_comm _ _).symm
  · rfl
  · simp only [Option.some_bind]; rw [withClients_withDuration_comm]
  · simp only [Option.some_bind]; exact (withMemStats_withClients_comm _ _).symm
  · simp only [Option.some_bind]; exact (withDBInfo_withDuration_comm _ _).symm
  · simp only [Option.some_bind]; rw [withClients_withDuration_comm]
  · rfl
  · simp only [Option.some_bind]; exact (withMemStats_withDuration_comm _ _).symm
  · exact (withDBInfo_withMemStats_comm _ _).symm
  · simp only [Option.some_bind]; exact withMemStats_withClients_comm _ _
  · simp only [Option.some_bind]; exact withMemStats_withDuration_comm _ _
  · rfl

/-- `populateFrom` is the run of the four passes in their order. -/
theorem runPasses_passes (metricsFamilies : Families F) (ms : metrics F) :
    runPasses (passes metricsFamilies) ms = populateFrom metricsFamilies ms := by
  unfold populateFrom passes
  simp only [runPasses, Option.bind_eq_bind]
  cases withDBInfo metricsFamilies ms with
  | none => rfl
  | some a =>
    simp only [Option.some_bind]
    cases withMemStats metricsFamilies (withDuration metricsFamilies (withClients metricsFamilies a))
      <;> rfl

end PassOrder

/-! ## The tables are disjoint -/

theorem readers_writers_disjoint (method : String) :
    ¬ (isReader method = true ∧ isWriter method = true) := by
  rintro ⟨hr, hw⟩
  have h1 : method ∈ GoMap.keys readers := (GoMap.get?_isSome_iff readers method).1 hr
  have h2 : method ∈ GoMap.keys writers := (GoMap.get?_isSome_iff writers method).1 hw
  have hdisj : ∀ k ∈ GoMap.keys readers, k ∉ GoMap.keys writers := by decide
  exact hdisj method h1 h2

/-! ## Read samples and read keys -/

theorem length_dedup_eq_iff_nodup (l : List String) : l.dedup.length = l.length ↔ l.Nodup := by
  constructor
  · intro h
    exact List.dedup_eq_self.1 ((List.dedup_sublist l).eq_of_length h)
  · intro h
    rw [h.dedup]

section ReadKeys

variable {F : Type} [GoFloat64 F]

/-- After `withDuration` the keys of `durationRPCsByMethod` that are in `readers` are
the distinct method names of the read-classified samples. -/
theorem length_readKeys_withDuration (metricsFamilies : Families F) (ms : metrics F) :
    (readKeys (withDuration metricsFamilies ms)).length =
      (readMethodNames metricsFamilies).dedup.length := by
  apply List.Perm.length_eq
  rw [List.perm_ext_iff_of_nodup]
  · intro k
    simp only [readKeys, withDuration_eq, List.mem_filter, GoMap.mem_keys_foldl_set,
      List.mem_dedup, readMethodNames, readSamples, List.mem_map]
    constructor
    · rintro ⟨h | ⟨m, hm, rfl⟩, hk⟩
      · exact absurd h (List.not_mem_nil _)
      · exact ⟨m, ⟨hm, hk⟩, rfl⟩
    · rintro ⟨m, ⟨hm, hk⟩, rfl⟩
      exact ⟨Or.inr ⟨m, hm, rfl⟩, hk⟩
  · unfold readKeys
    simp only [withDuration_eq]
    exact (GoMap.nodup_keys_foldl_set methodName rpcOf _ [] List.nodup_nil).filter _
  · exact List.nodup_dedup _

end ReadKeys

/-! # The claims -/

section Claims

variable {F : Type} [GoFloat64 F]

/-- C1, as stated, fails: on two samples that both carry the read method `Get`,
`populateFrom` on the zero-valued metrics leaves `reads.counter = 2`, while one
distinct read-classified method name occurs. -/
theorem reads_counter_not_distinct_names :
    populateFrom twoGets metrics.zero = some twoGetsResult ∧
      twoGetsResult.reads.counter = 2 ∧ (readMethodNames twoGets).dedup.length = 1 ∧
      twoGetsResult.reads.counter ≠ (readMethodNames twoGets).dedup.length := by
  exact ⟨populateFrom_twoGets, by decide!, by decide!, by decide!⟩

/-- C1, amended: when no read-classified method name is carried by two samples of
`grpc_server_handling_seconds`, then after `populateFrom` on the zero-valued metrics
(and after `withDuration` alone) `reads.counter` is the number of distinct
read-classified method names among the samples, whatever the histogram counts. -/
theorem reads_counter_eq_distinct_names (metricsFamilies : Families F) (ms' : metrics F)
    (hnodup : (readMethodNames metricsFamilies).Nodup)
    (hrun : populateFrom metricsFamilies metrics.zero = some ms') :
    ms'.reads.counter = (readMethodNames metricsFamilies).dedup.length ∧
      (withDuration metricsFamilies metrics.zero).reads.counter =
        (readMethodNames metricsFamilies).dedup.length := by
  have hlen : (readMethodNames metricsFamilies).length ≤ 23 :=
    (hnodup.subperm (readMethodNames_subset metricsFamilies)).length_le
  have hcount : (finish ((durationSamples metricsFamilies).foldl readsStep
      (metrics.zero : metrics F).reads)).counter =
        (readMethodNames metricsFamilies).dedup.length := by
    rw [finish_counter, foldl_readsStep_counter _ _ (by simp [metrics.zero]), hnodup.dedup]
    simp only [readMethodNames, readSamples, List.length_map] at hlen ⊢
    simp only [metrics.zero, Nat.zero_add]
    exact Nat.mod_eq_of_lt (by omega)
  refine ⟨?_, ?_⟩
  · rw [(populateFrom_duration_fields _ _ _ hrun).1]; exact hcount
  · rw [withDuration_eq]; exact hcount

theorem reads_counter_eq_distinct_names_witness :
    (readMethodNames getAndSet).Nodup ∧
      populateFrom getAndSet metrics.zero = some getAndSetResult ∧
      getAndSetResult.reads.counter = (readMethodNames getAndSet).dedup.length :=
  ⟨by decide!, populateFrom_getAndSet,
    (reads_counter_eq_distinct_names getAndSet getAndSetResult (by decide!)
      populateFrom_getAndSet).1⟩

/-- C2: when the histogram counts of the write-classified samples sum to less than
`2^64`, then after `populateFrom` on the zero-valued metrics (and after
`withDuration` alone) `writes.counter` is the sum of the sample counts of the samples
of `grpc_server_handling_seconds` whose method is in `writers`, and
`writes.duration` is the sum of their sample sums, accumulated in family order from
the zero value. -/
theorem writes_counter_and_duration (metricsFamilies : Families F) (ms' : metrics F)
    (hsum : ((writeSamples metricsFamilies).map
      (fun m => Histogram.GetSampleCount m.histogram)).sum < 2 ^ 64)
    (hrun : populateFrom metricsFamilies metrics.zero = some ms') :
    (ms'.writes.counter =
        ((writeSamples metricsFamilies).map
          (fun m => Histogram.GetSampleCount m.histogram)).sum ∧
      ms'.writes.duration =
        sumFrom GoFloat64.zero
          ((writeSamples metricsFamilies).map
            (fun m => Histogram.GetSampleSum m.histogram))) ∧
    ((withDuration metricsFamilies metrics.zero).writes.counter =
        ((writeSamples metricsFamilies).map
          (fun m => Histogram.GetSampleCount m.histogram)).sum ∧
      (withDuration metricsFamilies metrics.zero).writes.duration =
        sumFrom GoFloat64.zero
          ((writeSamples metricsFamilies).map
            (fun m => Histogram.GetSampleSum m.histogram))) := by
  have hfields : (finish ((durationSamples metricsFamilies).foldl writesStep
        (metrics.zero : metrics F).writes)).counter =
          ((writeSamples metricsFamilies).map
            (fun m => Histogram.GetSampleCount m.histogram)).sum ∧
      (finish ((durationSamples metricsFamilies).foldl writesStep
        (metrics.zero : metrics F).writes)).duration =
          sumFrom GoFloat64.zero
            ((writeSamples metricsFamilies).map
              (fun m => Histogram.GetSampleSum m.histogram)) := by
    rw [finish_counter, finish_duration,
      foldl_writesStep_counter _ _ (by simp [metrics.zero]), foldl_writesStep_duration]
    refine ⟨?_, rfl⟩
    simp only [metrics.zero, Nat.zero_add]
    exact Nat.mod_eq_of_lt hsum
  refine ⟨?_, ?_⟩
  · rw [(populateFrom_duration_fields _ _ _ hrun).2.1]; exact hfields
  · rw [withDuration_eq]; exact hfields

theorem writes_counter_and_duration_witness :
    ((writeSamples getAndSet).map (fun m => Histogram.GetSampleCount m.histogram)).sum
        < 2 ^ 64 ∧
      populateFrom getAndSet metrics.zero = some getAndSetResult ∧
      getAndSetResult.writes.counter = 4 ∧
      ((writeSamples getAndSet).map (fun m => Histogram.GetSampleCount m.histogram)).sum = 4 :=
  ⟨by decide!, populateFrom_getAndSet, by decide!,
    (writes_counter_and_duration getAndSet getAndSetResult (by decide!)
      populateFrom_getAndSet).1.1.symm.trans (by decide!)⟩

/-- C3, as stated, fails: with the two size samples both of value 0.5, `withDBInfo`
completes with `lsmBytes = 0`, `vlogBytes = 0` and `totalBytes = 1`. -/
theorem totalBytes_ne_sum_at_halves :
    (withDBInfo halves metrics.zero).map (fun ms => ms.db) = some halvesDB ∧
      halvesDB.totalBytes ≠ halvesDB.lsmBytes + halvesDB.vlogBytes := by
  exact ⟨by decide!, by decide⟩

/-- C3, amended: on every input on which `withDBInfo` completes, `totalBytes` is the
conversion to `uint64` of the `float64` sum of the two size values (and `lsmBytes`,
`vlogBytes` the conversions of the values themselves); when the two values are
non-negative integers whose sum is below `2^53`, `totalBytes == lsmBytes +
vlogBytes`. -/
theorem totalBytes_eq_sum_of_integers [GoFloat64.Exact F] (metricsFamilies : Families F)
    (ms ms' : metrics F) (lsm vlog : Metric F)
    (hlsm : (MetricFamily.GetMetric (metricsFamilies "immudb_lsm_size_bytes"))[0]? = some lsm)
    (hvlog : (MetricFamily.GetMetric (metricsFamilies "immudb_vlog_size_bytes"))[0]? = some vlog)
    (hrun : withDBInfo metricsFamilies ms = some ms') :
    ms'.db.totalBytes =
        uint64 (GoFloat64.add (Untyped.GetValue lsm.untyped) (Untyped.GetValue vlog.untyped)) ∧
      ms'.db.lsmBytes = uint64 (Untyped.GetValue lsm.untyped) ∧
      ms'.db.vlogBytes = uint64 (Untyped.GetValue vlog.untyped) ∧
      ∀ a b : Nat, Untyped.GetValue lsm.untyped = GoFloat64.ofUInt64 a →
        Untyped.GetValue vlog.untyped = GoFloat64.ofUInt64 b → a + b < 2 ^ 53 →
        ms'.db.totalBytes = ms'.db.lsmBytes + ms'.db.vlogBytes := by
  have hfields : ms'.db.totalBytes =
        uint64 (GoFloat64.add (Untyped.GetValue lsm.untyped) (Untyped.GetValue vlog.untyped)) ∧
      ms'.db.lsmBytes = uint64 (Untyped.GetValue lsm.untyped) ∧
      ms'.db.vlogBytes = uint64 (Untyped.GetValue vlog.untyped) := by
    unfold withDBInfo at hrun
    simp only [Option.bind_eq_bind, Option.pure_def, hlsm, hvlog, Option.some_bind] at hrun
    cases h3 : (MetricFamily.GetMetric (metricsFamilies "immudb_number_of_stored_entries"))[0]? with
    | none => rw [h3] at hrun; simp at hrun
    | some m3 =>
      cases h4 : (MetricFamily.GetMetric (metricsFamilies "immudb_uptime_hours"))[0]? with
      | none => rw [h3, h4] at hrun; simp at hrun
      | some m4 =>
        rw [h3, h4] at hrun
        simp only [Option.some_bind, Option.some.injEq] at hrun
        subst hrun
        cases findLabel "database" lsm.label <;> exact ⟨rfl, rfl, rfl⟩
  obtain ⟨ht, hl, hv⟩ := hfields
  refine ⟨ht, hl, hv, ?_⟩
  intro a b ha hb hab
  rw [ht, hl, hv, ha, hb, GoFloat64.Exact.add_ofUInt64 a b hab]
  unfold uint64
  rw [GoFloat64.Exact.toUInt64_ofUInt64 _ hab,
    GoFloat64.Exact.toUInt64_ofUInt64 a (by omega),
    GoFloat64.Exact.toUInt64_ofUInt64 b (by omega)]
  omega

theorem totalBytes_eq_sum_of_integers_witness :
    (withDBInfo getAndSet metrics.zero).map (fun ms => ms.db) = some scrapeDB ∧
      scrapeDB.totalBytes = scrapeDB.lsmBytes + scrapeDB.vlogBytes :=
  ⟨by decide!,
    (totalBytes_eq_sum_of_integers getAndSet metrics.zero
      { (metrics.zero : metrics ℚ) with db := scrapeDB }
      { label := [⟨some "database", some "db1"⟩], untyped := some ⟨some 100⟩ }
      { untyped := some ⟨some 50⟩ } (by decide!) (by decide!) (by decide!)).2.2.2
      100 50 (by decide!) (by decide!) (by norm_num)⟩

/-- C4, as stated, fails: a second `populateFrom` on the same input, run on the
receiver that the first one left, doubles `reads.counter` and `writes.counter`; and
on an input without `database` label and without `go_memstats_*` families, a receiver
that carries a database name and a memory figure keeps them, where the zero-valued
receiver has the empty name and zero. -/
theorem populateFrom_twice_ne_once :
    (populateFrom getAndSet metrics.zero = some getAndSetResult ∧
      populateFrom getAndSet getAndSetResult = some getAndSetTwice ∧
      getAndSetTwice.reads.counter = 2 ∧ getAndSetResult.reads.counter = 1 ∧
      getAndSetTwice.writes.counter = 8 ∧ getAndSetResult.writes.counter = 4 ∧
      getAndSetTwice ≠ getAndSetResult) ∧
    ((populateFrom unlabelled leftover).map (fun ms => (ms.db.name, ms.memstats.sysBytes))
        = some ("old", 5) ∧
      (populateFrom unlabelled metrics.zero).map (fun ms => (ms.db.name, ms.memstats.sysBytes))
        = some ("", 0)) := by
  exact ⟨⟨populateFrom_getAndSet, by decide!, by decide!, by decide!, by decide!, by decide!,
    by decide!⟩, by decide!, by decide!⟩

/-- C4, amended: `populateFrom(F)` depends on the prior state `s` of its receiver only
through `s.reads`, `s.writes`, `s.db.name` and `s.memstats`; whenever these four are
zero-valued, `populateFrom(F)` starting from `s` yields what it yields starting
from the zero-valued metrics (the same value, or the same fault). -/
theorem populateFrom_independent_of_prior (metricsFamilies : Families F) (s : metrics F)
    (hreads : s.reads = (metrics.zero : metrics F).reads)
    (hwrites : s.writes = (metrics.zero : metrics F).writes)
    (hname : s.db.name = "")
    (hmem : s.memstats = (metrics.zero : metrics F).memstats) :
    populateFrom metricsFamilies s = populateFrom metricsFamilies metrics.zero := by
  rw [populateFrom_carriedOver metricsFamilies s,
    populateFrom_carriedOver metricsFamilies metrics.zero]
  unfold carriedOver
  rw [hreads, hwrites, hname, hmem]
  rfl

theorem populateFrom_independent_of_prior_witness :
    staleMetrics ≠ metrics.zero ∧
      populateFrom getAndSet staleMetrics = some getAndSetResult ∧
      populateFrom getAndSet metrics.zero = some getAndSetResult :=
  ⟨by decide!,
    (populateFrom_independent_of_prior getAndSet staleMetrics (by decide!) (by decide!)
      (by decide!) (by decide!)).trans populateFrom_getAndSet,
    populateFrom_getAndSet⟩

/-- C5: after `populateFrom` on the zero-valued metrics (and after `withDuration`
alone), `reads` and `writes` both satisfy the invariant of an aggregate:
`avgDuration` is `duration / counter` when `counter > 0` and is zero when
`counter == 0`.  No division by zero is performed: the run divides by `float64(c)`
with `c > 0` only, so it yields the same result with any other division that agrees
with `/` on those divisors. -/
theorem aggregates_satisfy_invariant {F : Type} [ops : GoFloat64 F]
    (metricsFamilies : Families F) (ms' : metrics F)
    (hrun : populateFrom metricsFamilies metrics.zero = some ms') :
    (ms'.reads.Invariant ∧ ms'.writes.Invariant) ∧
      ((withDuration metricsFamilies metrics.zero).reads.Invariant ∧
        (withDuration metricsFamilies metrics.zero).writes.Invariant) ∧
      ∀ quotient : F → F → F,
        (∀ (x : F) (c : Nat), 0 < c →
          quotient x (GoFloat64.ofUInt64 c) = GoFloat64.div x (GoFloat64.ofUInt64 c)) →
        @populateFrom F (withDivision ops quotient) metricsFamilies metrics.zero = some ms' := by
  have hr : (finish ((durationSamples metricsFamilies).foldl readsStep
      (metrics.zero : metrics F).reads)).Invariant :=
    finish_invariant _ (by rw [foldl_readsStep_avgDuration]; rfl)
  have hw : (finish ((durationSamples metricsFamilies).foldl writesStep
      (metrics.zero : metrics F).writes)).Invariant :=
    finish_invariant _ (by rw [foldl_writesStep_avgDuration]; rfl)
  obtain ⟨h1, h2, _⟩ := populateFrom_duration_fields _ _ _ hrun
  refine ⟨⟨?_, ?_⟩, ⟨?_, ?_⟩, ?_⟩
  · rw [h1]; exact hr
  · rw [h2]; exact hw
  · rw [withDuration_eq]; exact hr
  · rw [withDuration_eq]; exact hw
  · intro quotient hquotient
    rw [populateFrom_division ops quotient hquotient]
    exact hrun

theorem aggregates_satisfy_invariant_witness :
    populateFrom getAndSet metrics.zero = some getAndSetResult ∧
      (getAndSetResult.reads.Invariant ∧ getAndSetResult.writes.Invariant) ∧
      @populateFrom ℚ (withDivision ratFloat64 trappingDivision) getAndSet metrics.zero =
        some getAndSetResult :=
  ⟨populateFrom_getAndSet,
    (aggregates_satisfy_invariant getAndSet getAndSetResult populateFrom_getAndSet).1,
    (aggregates_satisfy_invariant getAndSet getAndSetResult populateFrom_getAndSet).2.2
      trappingDivision (by
        intro x c hc
        have hne : ((c : ℚ) = 0) = False := by
          simp only [eq_iff_iff, iff_false, Nat.cast_eq_zero]; omega
        show (if ((c : ℚ) = 0) then (12345 : ℚ) else x / (c : ℚ)) = x / (c : ℚ)
        simp only [hne, if_false])⟩

/-- C6: a sample of `grpc_server_handling_seconds` whose method name is in neither
`readers` nor `writers` contributes nothing to `reads` and `writes`: after
`withDuration`, from any receiver, they are what they are on the input without that
sample; yet the method name is a key of `durationRPCsByMethod`. -/
theorem unknown_method_only_in_durations (metricsFamilies without : Families F)
    (ms : metrics F) (pre post : List (Metric F)) (m : Metric F)
    (hsamples : durationSamples metricsFamilies = pre ++ m :: post)
    (hwithout : durationSamples without = pre ++ post)
    (hreaders : GoMap.get? readers (methodName m) = none)
    (hwriters : GoMap.get? writers (methodName m) = none) :
    (withDuration metricsFamilies ms).reads = (withDuration without ms).reads ∧
      (withDuration metricsFamilies ms).writes = (withDuration without ms).writes ∧
      methodName m ∈ GoMap.keys (withDuration metricsFamilies ms).durationRPCsByMethod := by
  have hr : ∀ r : operations F, readsStep r m = r := by
    intro r; simp [readsStep, isReader, hreaders]
  have hw : ∀ w : operations F, writesStep w m = w := by
    intro w; simp [writesStep, isWriter, hwriters]
  simp only [withDuration_eq, hsamples, hwithout, List.foldl_append, List.foldl_cons, hr, hw,
    true_and]
  rw [← List.foldl_cons (f := fun d m => GoMap.set d (methodName m) (rpcOf m)),
    ← List.foldl_append, GoMap.mem_keys_foldl_set]
  exact Or.inr ⟨m, by simp, rfl⟩

theorem unknown_method_only_in_durations_witness :
    (withDuration withUnknown metrics.zero).reads = (withDuration getAndSet metrics.zero).reads ∧
      (withDuration withUnknown metrics.zero).writes =
        (withDuration getAndSet metrics.zero).writes ∧
      methodName (histogramSample "Backup" 3 9) ∈
        GoMap.keys (withDuration withUnknown metrics.zero).durationRPCsByMethod :=
  unknown_method_only_in_durations withUnknown getAndSet metrics.zero
    [histogramSample "Get" 10 5] [histogramSample "Set" 4 2] (histogramSample "Backup" 3 9)
    (by decide!) (by decide!) (by decide!) (by decide!)

/-- C7: for a sample of `grpc_server_handling_seconds` that is the last one carrying
its method name, the entry of `durationRPCsByMethod` under that name has the sample's
count as `counter`, the sample's sum as `totalDuration`, and as `avgDuration` the
quotient `sum / count` when `count != 0` and zero when `count == 0`. -/
theorem last_sample_entry (metricsFamilies : Families F) (ms : metrics F)
    (pre post : List (Metric F)) (m : Metric F)
    (hsamples : durationSamples metricsFamilies = pre ++ m :: post)
    (hlast : ∀ m' ∈ post, methodName m' ≠ methodName m) :
    GoMap.get? (withDuration metricsFamilies ms).durationRPCsByMethod (methodName m) =
      some
        { method := methodName m
          counter := Histogram.GetSampleCount m.histogram
          totalDuration := Histogram.GetSampleSum m.histogram
          avgDuration :=
            if Histogram.GetSampleCount m.histogram ≠ 0 then
              GoFloat64.div (Histogram.GetSampleSum m.histogram)
                (GoFloat64.ofUInt64 (Histogram.GetSampleCount m.histogram))
            else GoFloat64.zero } := by
  simp only [withDuration_eq, hsamples]
  exact GoMap.get?_foldl_set_last methodName rpcOf pre post m [] hlast

theorem last_sample_entry_witness :
    GoMap.get? (withDuration withIdle metrics.zero).durationRPCsByMethod "Scan" =
      some { method := "Scan", counter := 0, totalDuration := 0, avgDuration := 0 } :=
  last_sample_entry withIdle metrics.zero [histogramSample "Get" 4 2] []
    (histogramSample "Scan" 0 0) (by decide!) (by decide!)

/-- C8, as stated, fails: for the write samples `Set` (count `2^64 - 1`, sum 8) and
`ZAdd` (count 2, sum 4), whose counts sum to `2^64 + 1` and whose sums sum to 12,
`populateFrom` leaves `writes.counter = 1` and `writes.avgDuration = 12`, which is not
`12 / (2^64 + 1)`. -/
theorem writes_average_wraps_around :
    (populateFrom overflowingWrites metrics.zero).map (fun ms => ms.writes) = some ⟨1, 12, 12⟩ ∧
      ((writeSamples overflowingWrites).map
        (fun m => Histogram.GetSampleCount m.histogram)).sum = 2 ^ 64 + 1 ∧
      sumFrom (GoFloat64.zero : ℚ)
        ((writeSamples overflowingWrites).map
          (fun m => Histogram.GetSampleSum m.histogram)) = 12 ∧
      GoFloat64.div (12 : ℚ) (GoFloat64.ofUInt64 (2 ^ 64 + 1)) ≠ 12 := by
  exact ⟨by decide!, by decide!, by decide!, by decide!⟩

/-- C8, amended: after `populateFrom` on the zero-valued metrics, `reads.avgDuration`
is the sum, accumulated in family order, of the per-sample averages (`sum / count`, or
0 when the count is 0) of the read-classified samples over `reads.counter`, and
`writes.avgDuration` is the sum of the sums of the write-classified samples over
`writes.counter`, where the counters are the number of read samples and the sum of the
write counts modulo `2^64`, and a zero counter gives the average zero.  So
`reads.avgDuration` is the mean of the per-sample averages (a Go slice has fewer than
`2^63` elements), and `writes.avgDuration` is the sum of the sums over the sum of the
counts when the counts sum to less than `2^64`.  For `Get` (count 10, sum 5.0) and
`Set` (count 4, sum 2.0): `reads.counter = 1`, `reads.avgDuration = 0.5`,
`writes.counter = 4`, `writes.avgDuration = 0.5`. -/
theorem averages_of_reads_and_writes :
    (∀ (F : Type) [GoFloat64 F] (metricsFamilies : Families F) (ms' : metrics F),
      populateFrom metricsFamilies metrics.zero = some ms' →
        (ms'.reads.avgDuration =
            guardedQuotient
              (sumFrom GoFloat64.zero ((readSamples metricsFamilies).map sampleAverage))
              ((readSamples metricsFamilies).length % 2 ^ 64) ∧
          ms'.writes.avgDuration =
            guardedQuotient
              (sumFrom GoFloat64.zero
                ((writeSamples metricsFamilies).map
                  (fun m => Histogram.GetSampleSum m.histogram)))
              (((writeSamples metricsFamilies).map
                  (fun m => Histogram.GetSampleCount m.histogram)).sum % 2 ^ 64)) ∧
        ((durationSamples metricsFamilies).length < 2 ^ 63 →
          ms'.reads.avgDuration =
            guardedQuotient
              (sumFrom GoFloat64.zero ((readSamples metricsFamilies).map sampleAverage))
              (readSamples metricsFamilies).length) ∧
        (((writeSamples metricsFamilies).map
            (fun m => Histogram.GetSampleCount m.histogram)).sum < 2 ^ 64 →
          ms'.writes.avgDuration =
            guardedQuotient
              (sumFrom GoFloat64.zero
                ((writeSamples metricsFamilies).map
                  (fun m => Histogram.GetSampleSum m.histogram)))
              ((writeSamples metricsFamilies).map
                (fun m => Histogram.GetSampleCount m.histogram)).sum)) ∧
      populateFrom getAndSet metrics.zero = some getAndSetResult ∧
      getAndSetResult.reads.counter = 1 ∧ getAndSetResult.reads.avgDuration = 1 / 2 ∧
      getAndSetResult.writes.counter = 4 ∧ getAndSetResult.writes.avgDuration = 1 / 2 := by
  refine ⟨?_, populateFrom_getAndSet, rfl, rfl, rfl, rfl⟩
  intro F _ metricsFamilies ms' hrun
  obtain ⟨h1, h2, _⟩ := populateFrom_duration_fields _ _ _ hrun
  have hreads : ms'.reads.avgDuration =
      guardedQuotient
        (sumFrom GoFloat64.zero ((readSamples metricsFamilies).map sampleAverage))
        ((readSamples metricsFamilies).length % 2 ^ 64) := by
    rw [h1, finish_avgDuration _ (by rw [foldl_readsStep_avgDuration]; rfl),
      foldl_readsStep_duration, foldl_readsStep_counter _ _ (by simp [metrics.zero])]
    simp only [metrics.zero, Nat.zero_add]
    rfl
  have hwrites : ms'.writes.avgDuration =
      guardedQuotient
        (sumFrom GoFloat64.zero
          ((writeSamples metricsFamilies).map (fun m => Histogram.GetSampleSum m.histogram)))
        (((writeSamples metricsFamilies).map
            (fun m => Histogram.GetSampleCount m.histogram)).sum % 2 ^ 64) := by
    rw [h2, finish_avgDuration _ (by rw [foldl_writesStep_avgDuration]; rfl),
      foldl_writesStep_duration, foldl_writesStep_counter _ _ (by simp [metrics.zero])]
    simp only [metrics.zero, Nat.zero_add]
    rfl
  refine ⟨⟨hreads, hwrites⟩, ?_, ?_⟩
  · intro hslice
    have hle : (readSamples metricsFamilies).length ≤ (durationSamples metricsFamilies).length :=
      List.length_filter_le _ _
    rw [hreads, Nat.mod_eq_of_lt (by omega)]
  · intro hsum
    rw [hwrites, Nat.mod_eq_of_lt hsum]

theorem averages_of_reads_and_writes_witness :
    populateFrom getAndSet metrics.zero = some getAndSetResult ∧
      (durationSamples getAndSet).length < 2 ^ 63 ∧
      ((writeSamples getAndSet).map (fun m => Histogram.GetSampleCount m.histogram)).sum
        < 2 ^ 64 ∧
      getAndSetResult.reads.avgDuration =
        guardedQuotient (sumFrom GoFloat64.zero ((readSamples getAndSet).map sampleAverage))
          (readSamples getAndSet).length ∧
      getAndSetResult.writes.avgDuration =
        guardedQuotient
          (sumFrom GoFloat64.zero
            ((writeSamples getAndSet).map (fun m => Histogram.GetSampleSum m.histogram)))
          ((writeSamples getAndSet).map (fun m => Histogram.GetSampleCount m.histogram)).sum ∧
      guardedQuotient
          (sumFrom GoFloat64.zero
            ((writeSamples getAndSet).map (fun m => Histogram.GetSampleSum m.histogram)))
          ((writeSamples getAndSet).map (fun m => Histogram.GetSampleCount m.histogram)).sum
        = (1 / 2 : ℚ) :=
  ⟨populateFrom_getAndSet, by decide!, by decide!,
    (averages_of_reads_and_writes.1 ℚ getAndSet getAndSetResult populateFrom_getAndSet).2.1
      (by decide!),
    (averages_of_reads_and_writes.1 ℚ getAndSet getAndSetResult populateFrom_getAndSet).2.2
      (by decide!),
    by decide!⟩

/-- C9: the lookups in `readers` and `writers` match exactly and with case: a method
name is found in `readers` iff it is one of the 23 names of `readNames`, and in
`writers` iff it is one of the 10 names of `writeNames`; every other string,
such as `get`, the empty string and `Get` followed by a blank, is in neither table. -/
theorem classification_is_exact_match :
    (∀ method : String, (GoMap.get? readers method).isSome = true ↔ method ∈ readNames) ∧
      (∀ method : String, (GoMap.get? writers method).isSome = true ↔ method ∈ writeNames) ∧
      (readNames.length = 23 ∧ readNames.Nodup) ∧
      (writeNames.length = 10 ∧ writeNames.Nodup) ∧
      (∀ method : String, method ∉ readNames → method ∉ writeNames →
        GoMap.get? readers method = none ∧ GoMap.get? writers method = none) ∧
      (GoMap.get? readers "get" = none ∧ GoMap.get? writers "get" = none) ∧
      (GoMap.get? readers "" = none ∧ GoMap.get? writers "" = none) ∧
      (GoMap.get? readers "Get " = none ∧ GoMap.get? writers "Get " = none) ∧
      GoMap.get? readers "Get" = some true := by
  have hr : ∀ method : String, (GoMap.get? readers method).isSome = true ↔ method ∈ readNames :=
    fun method => GoMap.get?_isSome_iff readers method
  have hw : ∀ method : String, (GoMap.get? writers method).isSome = true ↔ method ∈ writeNames :=
    fun method => GoMap.get?_isSome_iff writers method
  refine ⟨hr, hw, ⟨rfl, by decide⟩, ⟨rfl, by decide⟩, ?_, by decide, by decide, by decide,
    by decide⟩
  intro method h1 h2
  constructor
  · cases h : GoMap.get? readers method with
    | none => rfl
    | some b => exact absurd ((hr method).1 (by rw [h]; rfl)) h1
  · cases h : GoMap.get? writers method with
    | none => rfl
    | some b => exact absurd ((hw method).1 (by rw [h]; rfl)) h2

theorem classification_is_exact_match_witness :
    "GET" ∉ readNames ∧ "GET" ∉ writeNames ∧
      GoMap.get? readers "GET" = none ∧ GoMap.get? writers "GET" = none :=
  ⟨by decide, by decide,
    classification_is_exact_match.2.2.2.2.1 "GET" (by decide) (by decide)⟩

/-- C10, as stated, fails: at the clock reading 10000 s, the client whose timestamp is
`2^63` is not in the result, and neither is the one whose timestamp is `2^63 - 1024`,
although for both `now - t` is negative, hence below one hour. -/
theorem clientsActive_drops_wrapped_timestamps :
    (GoMap.get? sampleClients.lastMsgAtPerClient "10.0.0.4" = some (2 ^ 63) ∧
      sampleNow.unixNano - ((2 ^ 63 : Nat) : Int) * 1000000000 < 3600 * 1000000000 ∧
      GoMap.get? (clientsActiveDuringLastHour sampleNow sampleClients).2 "10.0.0.4" = none) ∧
    (GoMap.get? sampleClients.lastMsgAtPerClient "10.0.0.5" = some (2 ^ 63 - 1024) ∧
      sampleNow.unixNano - ((2 ^ 63 - 1024 : Nat) : Int) * 1000000000 < 3600 * 1000000000 ∧
      GoMap.get? (clientsActiveDuringLastHour sampleNow sampleClients).2 "10.0.0.5" = none) := by
  exact ⟨⟨by decide!, by decide!, by decide!⟩, by decide!, by decide!, by decide!⟩

/-- C10, amended: with the clock reading `now` as a parameter,
`clientsActiveDuringLastHour` leaves the receiver as it was and returns exactly the
pairs `(ip, time.Unix(int64(t)))` with `(ip, t)` in `lastMsgAtPerClient` whose age as
`time.Since` computes it is strictly below one hour.  For a timestamp `t` below
`2^63 - 62135596800` that age is `now - t`: 1800 seconds ago is in, 3700 seconds ago
is out and exactly 3600 seconds ago is out.  A timestamp from `2^63 - 62135596800`
on is read as the time `t - 2^64`, before the Unix epoch, and the client is out once
the clock reads an hour or more after the epoch. -/
theorem clientsActive_exactly_within_hour [GoFloat64.Exact F] (now : Time) (ms : metrics F)
    (hkeys : (GoMap.keys ms.lastMsgAtPerClient).Nodup) :
    (clientsActiveDuringLastHour now ms).1 = ms ∧
      (∀ (ip : String) (seen : Time),
        GoMap.get? (clientsActiveDuringLastHour now ms).2 ip = some seen ↔
          ∃ t, GoMap.get? ms.lastMsgAtPerClient ip = some t ∧ seen = Time.Unix (int64 t) ∧
            now.Sub (Time.Unix (int64 t)) < 3600 * 1000000000) ∧
      (∀ (ip : String) (t : Nat), GoMap.get? ms.lastMsgAtPerClient ip = some t →
        (t : Int) < 2 ^ 63 - 62135596800 →
        Time.Unix (int64 t) = ⟨(t : Int), 0⟩ ∧
        (GoMap.get? (clientsActiveDuringLastHour now ms).2 ip = some ⟨(t : Int), 0⟩ ↔
          now.unixNano - (t : Int) * 1000000000 < 3600 * 1000000000) ∧
        (now.unixNano - (t : Int) * 1000000000 = 1800 * 1000000000 →
          GoMap.get? (clientsActiveDuringLastHour now ms).2 ip = some ⟨(t : Int), 0⟩) ∧
        (now.unixNano - (t : Int) * 1000000000 = 3700 * 1000000000 →
          GoMap.get? (clientsActiveDuringLastHour now ms).2 ip = none) ∧
        (now.unixNano - (t : Int) * 1000000000 = 3600 * 1000000000 →
          GoMap.get? (clientsActiveDuringLastHour now ms).2 ip = none)) ∧
      (∀ (ip : String) (t : Nat), GoMap.get? ms.lastMsgAtPerClient ip = some t →
        2 ^ 63 - 62135596800 ≤ (t : Int) → t < 2 ^ 64 →
        Time.Unix (int64 t) = ⟨(t : Int) - 2 ^ 64, 0⟩ ∧
        (GoMap.get? (clientsActiveDuringLastHour now ms).2 ip = some ⟨(t : Int) - 2 ^ 64, 0⟩ ↔
          now.unixNano - ((t : Int) - 2 ^ 64) * 1000000000 < 3600 * 1000000000) ∧
        (3600 * 1000000000 ≤ now.unixNano →
          GoMap.get? (clientsActiveDuringLastHour now ms).2 ip = none)) := by
  have hget : ∀ ip : String, GoMap.get? (clientsActiveDuringLastHour now ms).2 ip =
      match GoMap.get? ms.lastMsgAtPerClient ip with
      | some t =>
        if now.unixNano - (Time.Unix (int64 t)).unixNano < Hour
        then some (Time.Unix (int64 t)) else none
      | none => none := by
    intro ip
    unfold clientsActiveDuringLastHour
    simp only
    rw [get?_foldl_clientsActiveStep now _ _ hkeys ip]
    cases GoMap.get? ms.lastMsgAtPerClient ip with
    | none => rfl
    | some t =>
      simp only
      by_cases h : now.unixNano - (Time.Unix (int64 t)).unixNano < Hour
      · rw [if_pos ((active_iff now t).2 h), if_pos h]
      · rw [if_neg (fun h' => h ((active_iff now t).1 h')), if_neg h]
        rfl
  have hHour : Hour = 3600 * 1000000000 := by norm_num [Hour]
  have hat : ∀ (ip : String) (t : Nat) (sec : Int),
      GoMap.get? ms.lastMsgAtPerClient ip = some t → Time.Unix (int64 t) = ⟨sec, 0⟩ →
      GoMap.get? (clientsActiveDuringLastHour now ms).2 ip =
        if now.unixNano - sec * 1000000000 < 3600 * 1000000000
        then some ⟨sec, 0⟩ else none := by
    intro ip t sec hip hunix
    rw [hget ip, hip]
    simp only [hunix, hHour, Time.unixNano, add_zero]
  refine ⟨rfl, ?_, ?_, ?_⟩
  · intro ip seen
    rw [hget ip, ← hHour]
    simp only [Time.Sub_lt_Hour]
    cases GoMap.get? ms.lastMsgAtPerClient ip with
    | none => simp
    | some t =>
      simp only
      constructor
      · intro h
        by_cases hlt : now.unixNano - (Time.Unix (int64 t)).unixNano < Hour
        · rw [if_pos hlt] at h
          exact ⟨t, rfl, (Option.some.inj h).symm, hlt⟩
        · rw [if_neg hlt] at h; exact absurd h (by simp)
      · rintro ⟨t', ht', hseen, hlt⟩
        obtain rfl := Option.some.inj ht'
        rw [if_pos hlt, hseen]
  · intro ip t hip ht
    have hunix := Time.Unix_int64_of_lt t (by unfold unixToInternal; exact ht)
    rw [hat ip t _ hip hunix]
    refine ⟨hunix, ?_, ?_, ?_, ?_⟩
    · by_cases h : now.unixNano - (t : Int) * 1000000000 < 3600 * 1000000000
      · simp [h]
      · simp [h]
    · intro h; rw [if_pos (by omega)]
    · intro h; rw [if_neg (by omega)]
    · intro h; rw [if_neg (by omega)]
  · intro ip t hip ht h64
    have hunix := Time.Unix_int64_of_ge t (by unfold unixToInternal; exact ht) h64
    rw [hat ip t _ hip hunix]
    refine ⟨hunix, ?_, ?_⟩
    · by_cases h : now.unixNano - ((t : Int) - 2 ^ 64) * 1000000000 < 3600 * 1000000000
      · simp [h]
      · simp [h]
    · intro h
      have ht64 : (t : Int) < 2 ^ 64 := by exact_mod_cast h64
      rw [if_neg (by omega)]

theorem clientsActive_exactly_within_hour_witness :
    (GoMap.keys sampleClients.lastMsgAtPerClient).Nodup ∧
      (clientsActiveDuringLastHour sampleNow sampleClients).1 = sampleClients ∧
      (clientsActiveDuringLastHour sampleNow sampleClients).2 = [("10.0.0.1", ⟨8200, 0⟩)] ∧
      GoMap.get? (clientsActiveDuringLastHour sampleNow sampleClients).2 "10.0.0.1" =
        some ⟨((8200 : Nat) : Int), 0⟩ ∧
      GoMap.get? (clientsActiveDuringLastHour sampleNow sampleClients).2 "10.0.0.3" = none :=
  ⟨by decide!,
    (clientsActive_exactly_within_hour sampleNow sampleClients (by decide!)).1,
    by decide!,
    ((clientsActive_exactly_within_hour sampleNow sampleClients (by decide!)).2.2.1
      "10.0.0.1" 8200 (by decide!) (by norm_num)).2.2.1 (by decide!),
    ((clientsActive_exactly_within_hour sampleNow sampleClients (by decide!)).2.2.1
      "10.0.0.3" 6400 (by decide!) (by norm_num)).2.2.2.2 (by decide!)⟩

/-- C11: after `withClients` (and after a completed `populateFrom`), from any
receiver, `nbClients` is the number of samples of `immudb_number_of_rpcs_per_client`;
and when the samples have pairwise distinct `ip` keys, the keys of `nbRPCsPerClient`
are exactly those `ip` values, there are `nbClients` of them, and each is mapped to
the counter value of its sample, converted to `uint64`. -/
theorem nbClients_and_distinct_clients (metricsFamilies : Families F) (ms : metrics F) :
    (withClients metricsFamilies ms).nbClients = (rpcSamples metricsFamilies).length ∧
      (((rpcSamples metricsFamilies).map clientKey).Nodup →
        (∀ k : String, k ∈ GoMap.keys (withClients metricsFamilies ms).nbRPCsPerClient ↔
          k ∈ (rpcSamples metricsFamilies).map clientKey) ∧
        (GoMap.keys (withClients metricsFamilies ms).nbRPCsPerClient).length =
          (withClients metricsFamilies ms).nbClients ∧
        ∀ m ∈ rpcSamples metricsFamilies,
          GoMap.get? (withClients metricsFamilies ms).nbRPCsPerClient (clientKey m) =
            some (uint64 (Counter.GetValue m.counter))) ∧
      (∀ ms' : metrics F, populateFrom metricsFamilies ms = some ms' →
        ms'.nbClients = (rpcSamples metricsFamilies).length ∧
        ms'.nbRPCsPerClient = (withClients metricsFamilies ms).nbRPCsPerClient) := by
  refine ⟨withClients_nbClients _ _, ?_, ?_⟩
  · intro hnodup
    rw [withClients_nbRPCsPerClient, withClients_nbClients]
    refine ⟨?_, ?_, ?_⟩
    · intro k
      rw [GoMap.mem_keys_foldl_set, List.mem_map]
      constructor
      · rintro (h | h)
        · exact absurd h (List.not_mem_nil _)
        · exact h
      · exact Or.inr
    · rw [GoMap.keys_foldl_set_of_nodup _ _ _ _ hnodup
        (fun y _ => List.not_mem_nil _)]
      simp [GoMap.keys]
    · intro m hm
      obtain ⟨pre, post, hlist⟩ := List.append_of_mem hm
      rw [hlist]
      refine GoMap.get?_foldl_set_last clientKey
        (fun m => uint64 (Counter.GetValue m.counter)) pre post m [] ?_
      intro y hy hkey
      rw [hlist, List.map_append, List.map_cons, List.nodup_append] at hnodup
      exact (List.nodup_cons.1 hnodup.2.1).1 (hkey ▸ List.mem_map_of_mem clientKey hy)
  · intro ms' hrun
    obtain ⟨h1, h2, _⟩ := populateFrom_client_fields _ _ _ hrun
    exact ⟨h1.trans (withClients_nbClients _ _), h2⟩

theorem nbClients_and_distinct_clients_witness :
    ((rpcSamples threeClients).map clientKey).Nodup ∧
      (withClients threeClients metrics.zero).nbClients = 3 ∧
      (GoMap.keys (withClients threeClients metrics.zero).nbRPCsPerClient).length =
        (withClients threeClients metrics.zero).nbClients ∧
      (withClients threeClients metrics.zero).nbRPCsPerClient =
        [("10.0.0.3", 1), ("10.0.0.2", 9), ("10.0.0.1", 5)] ∧
      (populateFrom threeClients metrics.zero).map (fun ms => ms.nbClients) = some 3 :=
  ⟨by decide!,
    (nbClients_and_distinct_clients threeClients metrics.zero).1.trans (by decide!),
    ((nbClients_and_distinct_clients threeClients metrics.zero).2.1 (by decide!)).2.1,
    by decide!, by decide!⟩

/-- C12: for each of the two mappings that `withClients` builds, from any receiver: a
key `k` is present iff some sample of the source family has the key `k`, the key of a
sample being the value of its `ip` label, or the empty string when it has none; and
the entry of `k` is the value of the last such sample in family order, converted to
`uint64` (the counter value for `nbRPCsPerClient`, the gauge value for
`lastMsgAtPerClient`).  The pass is total: no sample makes it fault. -/
theorem client_mappings_last_sample_wins (metricsFamilies : Families F) (ms : metrics F) :
    ((∀ k : String, k ∈ GoMap.keys (withClients metricsFamilies ms).nbRPCsPerClient ↔
        ∃ m ∈ rpcSamples metricsFamilies, clientKey m = k) ∧
      (∀ (k : String) (v : Nat),
        GoMap.get? (withClients metricsFamilies ms).nbRPCsPerClient k = some v ↔
          ∃ pre m post, rpcSamples metricsFamilies = pre ++ m :: post ∧ clientKey m = k ∧
            (∀ m' ∈ post, clientKey m' ≠ k) ∧ v = uint64 (Counter.GetValue m.counter))) ∧
    ((∀ k : String, k ∈ GoMap.keys (withClients metricsFamilies ms).lastMsgAtPerClient ↔
        ∃ m ∈ lastMsgSamples metricsFamilies, clientKey m = k) ∧
      (∀ (k : String) (v : Nat),
        GoMap.get? (withClients metricsFamilies ms).lastMsgAtPerClient k = some v ↔
          ∃ pre m post, lastMsgSamples metricsFamilies = pre ++ m :: post ∧ clientKey m = k ∧
            (∀ m' ∈ post, clientKey m' ≠ k) ∧ v = uint64 (Gauge.GetValue m.gauge))) ∧
    (∀ m : Metric F,
      (findLabel "ip" m.label = none → clientKey m = "") ∧
      (∀ ip : String, findLabel "ip" m.label = some ip → clientKey m = ip)) := by
  rw [withClients_nbRPCsPerClient, withClients_lastMsgAtPerClient]
  refine ⟨⟨?_, ?_⟩, ⟨?_, ?_⟩, ?_⟩
  · intro k
    rw [GoMap.mem_keys_foldl_set]
    exact ⟨fun h => h.resolve_left (List.not_mem_nil _), Or.inr⟩
  · intro k v
    exact GoMap.get?_foldl_set_eq_some_iff clientKey _ _ k v
  · intro k
    rw [GoMap.mem_keys_foldl_set]
    exact ⟨fun h => h.resolve_left (List.not_mem_nil _), Or.inr⟩
  · intro k v
    exact GoMap.get?_foldl_set_eq_some_iff clientKey _ _ k v
  · intro m
    constructor
    · intro h; simp [clientKey, labelValue, h]
    · intro ip h; simp [clientKey, labelValue, h]

theorem client_mappings_last_sample_wins_witness :
    (withClients repeatedClient metrics.zero).nbRPCsPerClient = [("10.0.0.1", 8), ("", 2)] ∧
      (withClients repeatedClient metrics.zero).lastMsgAtPerClient =
        [("10.0.0.1", 1600000060)] ∧
      GoMap.get? (withClients repeatedClient metrics.zero).nbRPCsPerClient "10.0.0.1" = some 8 :=
  ⟨by decide!, by decide!,
    ((client_mappings_last_sample_wins repeatedClient metrics.zero).1.2 "10.0.0.1" 8).2
      ⟨[rpcSample "10.0.0.1" 5, { counter := some ⟨some 2⟩ }], rpcSample "10.0.0.1" 8, [],
        by decide!, by decide!, by decide!, by decide!⟩⟩

/-- C13, as stated, fails: with `go_memstats_sys_bytes` present but without samples,
`withMemStats` on the zero-valued metrics faults, although
`go_memstats_heap_idle_bytes` is absent, and `go_memstats_heap_alloc_bytes` is present
with a first sample of gauge value 7, which never reaches `heapAllocBytes`. -/
theorem withMemStats_faults_on_other_family :
    withMemStats brokenSysBytes metrics.zero = none ∧
      brokenSysBytes "go_memstats_heap_idle_bytes" = none ∧
      (brokenSysBytes "go_memstats_heap_alloc_bytes").bind firstGaugeValue = some 7 := by
  exact ⟨by decide!, by decide!, by decide!⟩

/-- C13, amended: `withMemStats` on the zero-valued metrics completes exactly when
each of the five families that is present has a first sample carrying a gauge value;
with none present it completes with all-zero `memstats`.  Whenever it completes, for
each of the five families: if the family is absent its field is 0, and if it is
present with a first sample of gauge value `v` its field is `uint64(v)`, whatever the
other four families are; no other field of the metrics is touched. -/
theorem memstats_fields_when_complete (metricsFamilies : Families F) :
    ((∀ p ∈ memStatsFields, metricsFamilies p.1 = none) →
        withMemStats metricsFamilies metrics.zero = some metrics.zero) ∧
      (withMemStats metricsFamilies (metrics.zero : metrics F) ≠ none ↔
        ∀ p ∈ memStatsFields, ∀ family, metricsFamilies p.1 = some family →
          firstGaugeValue family ≠ none) ∧
      (∀ ms' : metrics F, withMemStats metricsFamilies metrics.zero = some ms' →
        ms' = { (metrics.zero : metrics F) with memstats := ms'.memstats } ∧
        ∀ p ∈ memStatsFields,
          (metricsFamilies p.1 = none → p.2 ms'.memstats = 0) ∧
          (∀ family v, metricsFamilies p.1 = some family → firstGaugeValue family = some v →
            p.2 ms'.memstats = uint64 v)) := by
  have hzero : ∀ p ∈ memStatsFields, p.2 (metrics.zero : metrics F).memstats = 0 := by
    intro p hp
    simp only [memStatsFields, List.mem_cons, List.mem_singleton, List.not_mem_nil,
      or_false] at hp
    rcases hp with rfl | rfl | rfl | rfl | rfl <;> rfl
  have hfields : ∀ ms' : metrics F, withMemStats metricsFamilies metrics.zero = some ms' →
      ms' = { (metrics.zero : metrics F) with memstats := ms'.memstats } ∧
        ∀ p ∈ memStatsFields,
          pickGauge metricsFamilies p.1 0 = some (p.2 ms'.memstats) := by
    intro ms' hrun
    rw [withMemStats_eq] at hrun
    cases hs : memStatsOf metricsFamilies (metrics.zero : metrics F).memstats with
    | none => rw [hs] at hrun; simp at hrun
    | some s' =>
      rw [hs] at hrun
      simp only [Option.map_some', Option.some.injEq] at hrun
      subst hrun
      refine ⟨rfl, ?_⟩
      intro p hp
      have := (memStatsOf_eq_some_iff metricsFamilies _ s').1 hs p hp
      rw [hzero p hp] at this
      exact this
  refine ⟨?_, ?_, ?_⟩
  · intro habsent
    rw [withMemStats_eq]
    have hs : memStatsOf metricsFamilies (metrics.zero : metrics F).memstats =
        some (metrics.zero : metrics F).memstats := by
      rw [memStatsOf_eq_some_iff]
      intro p hp
      simp only [pickGauge, habsent p hp]
    rw [hs]
    rfl
  · rw [withMemStats_eq, Ne, Option.map_eq_none', memStatsOf_eq_none_iff]
    constructor
    · intro h p hp family hfam hnone
      exact h ⟨p, hp, family, hfam, hnone⟩
    · rintro h ⟨p, hp, family, hfam, hnone⟩
      exact h p hp family hfam hnone
  · intro ms' hrun
    obtain ⟨hframe, hpick⟩ := hfields ms' hrun
    refine ⟨hframe, ?_⟩
    intro p hp
    have h := hpick p hp
    constructor
    · intro habsent
      simp only [pickGauge, habsent, Option.some.injEq] at h
      exact h.symm
    · intro family v hfam hv
      simp only [pickGauge, hfam, hv, Option.map_some', Option.some.injEq] at h
      exact h.symm

theorem memstats_fields_when_complete_witness :
    withMemStats someMemStats metrics.zero = some someMemStatsResult ∧
      someMemStats "go_memstats_heap_idle_bytes" = none ∧
      someMemStatsResult.memstats.heapIdleBytes = 0 ∧
      someMemStatsResult.memstats.stackInUseBytes = uint64 (512 : ℚ) :=
  ⟨by decide!, by decide!,
    (((memstats_fields_when_complete someMemStats).2.2 someMemStatsResult (by decide!)).2
      ("go_memstats_heap_idle_bytes", memstats.heapIdleBytes) (by simp [memStatsFields])).1
      (by decide!),
    (((memstats_fields_when_complete someMemStats).2.2 someMemStatsResult (by decide!)).2
      ("go_memstats_stack_inuse_bytes", memstats.stackInUseBytes) (by simp [memStatsFields])).2
      (gaugeFamily 512) 512 (by decide!) (by decide!)⟩

/-- C14, as stated, fails for `populateFrom`: on a scrape in which all four families
of `withDBInfo` have a first sample, so that `withDBInfo` completes, `populateFrom`
still faults when `go_memstats_sys_bytes` is present without samples. -/
theorem populateFrom_faults_with_complete_dbInfo :
    populateFrom brokenSysBytes metrics.zero = none ∧
      (withDBInfo brokenSysBytes metrics.zero).isSome = true ∧
      (∀ name ∈ dbInfoFamilies,
        ((MetricFamily.GetMetric (brokenSysBytes name))[0]?).isSome = true) := by
  exact ⟨by decide!, by decide!, by decide!⟩

/-- C14, amended: `withDBInfo` faults if and only if at least one of its four families
is absent from the input map or has no first sample; `populateFrom` faults if and only
if that is so or one of the five `go_memstats_*` families is present without a first
sample carrying a gauge value.  When the four families have a first sample,
`withDBInfo` completes; a missing `database` label leaves the name as it was (empty,
from the zero value), and a missing scalar value reads as the zero value. -/
theorem faults_of_withDBInfo_and_populateFrom (metricsFamilies : Families F)
    (ms : metrics F) :
    (withDBInfo metricsFamilies ms = none ↔
        ∃ name ∈ dbInfoFamilies,
          metricsFamilies name = none ∨
            ∃ family, metricsFamilies name = some family ∧ family.metric = []) ∧
      (populateFrom metricsFamilies ms = none ↔
        (∃ name ∈ dbInfoFamilies,
          metricsFamilies name = none ∨
            ∃ family, metricsFamilies name = some family ∧ family.metric = []) ∨
        ∃ p ∈ memStatsFields, ∃ family, metricsFamilies p.1 = some family ∧
          firstGaugeValue family = none) ∧
      (∀ lsm vlog entries uptime : Metric F,
        (MetricFamily.GetMetric (metricsFamilies "immudb_lsm_size_bytes"))[0]? = some lsm →
        (MetricFamily.GetMetric (metricsFamilies "immudb_vlog_size_bytes"))[0]? = some vlog →
        (MetricFamily.GetMetric (metricsFamilies "immudb_number_of_stored_entries"))[0]?
          = some entries →
        (MetricFamily.GetMetric (metricsFamilies "immudb_uptime_hours"))[0]? = some uptime →
        ∃ ms', withDBInfo metricsFamilies ms = some ms' ∧
          (findLabel "database" lsm.label = none → ms'.db.name = ms.db.name) ∧
          ms'.db.lsmBytes = uint64 (Untyped.GetValue lsm.untyped) ∧
          ms'.db.vlogBytes = uint64 (Untyped.GetValue vlog.untyped) ∧
          ms'.db.nbEntries = uint64 (Counter.GetValue entries.counter) ∧
          ms'.db.uptimeHours = Counter.GetValue uptime.counter) ∧
      (Untyped.GetValue (none : Option (Untyped F)) = GoFloat64.zero ∧
        Untyped.GetValue (some ⟨none⟩ : Option (Untyped F)) = GoFloat64.zero ∧
        Counter.GetValue (none : Option (Counter F)) = GoFloat64.zero ∧
        Counter.GetValue (some ⟨none⟩ : Option (Counter F)) = GoFloat64.zero) := by
  have hdb : withDBInfo metricsFamilies ms = none ↔
      ∃ name ∈ dbInfoFamilies,
        metricsFamilies name = none ∨
          ∃ family, metricsFamilies name = some family ∧ family.metric = [] := by
    rw [withDBInfo_eq_none_iff]
    simp only [getElem?_zero_eq_none_iff]
  refine ⟨hdb, ?_, ?_, ⟨rfl, rfl, rfl, rfl⟩⟩
  · rw [populateFrom_eq_none_iff, hdb, withMemStats_eq, Option.map_eq_none',
      memStatsOf_eq_none_iff]
  · intro lsm vlog entries uptime hlsm hvlog hentries huptime
    refine ⟨_, withDBInfo_eq_some metricsFamilies ms lsm vlog entries uptime hlsm hvlog
      hentries huptime, ?_, rfl, rfl, rfl, rfl⟩
    intro hlabel
    simp only [hlabel, Option.getD_none]

theorem faults_of_withDBInfo_and_populateFrom_witness :
    withDBInfo unlabelled metrics.zero =
        some { (metrics.zero : metrics ℚ) with db := { scrapeDB with name := "" } } ∧
      ∃ ms', withDBInfo unlabelled metrics.zero = some ms' ∧
        (findLabel "database" ({ untyped := some ⟨some 100⟩ } : Metric ℚ).label = none →
          ms'.db.name = (metrics.zero : metrics ℚ).db.name) ∧
        ms'.db.lsmBytes = uint64 (Untyped.GetValue ({ untyped := some ⟨some 100⟩ } : Metric ℚ).untyped) ∧
        ms'.db.vlogBytes = uint64 (Untyped.GetValue ({ untyped := some ⟨some 50⟩ } : Metric ℚ).untyped) ∧
        ms'.db.nbEntries = uint64 (Counter.GetValue ({ counter := some ⟨some 7⟩ } : Metric ℚ).counter) ∧
        ms'.db.uptimeHours = Counter.GetValue ({ counter := some ⟨some 3⟩ } : Metric ℚ).counter :=
  ⟨by decide!,
    (faults_of_withDBInfo_and_populateFrom unlabelled metrics.zero).2.2.1
      { untyped := some ⟨some 100⟩ } { untyped := some ⟨some 50⟩ } { counter := some ⟨some 7⟩ }
      { counter := some ⟨some 3⟩ } (by decide!) (by decide!) (by decide!) (by decide!)⟩

/-- C15: when the first sample of `immudb_lsm_size_bytes` carries the label
`database = d` and the untyped value `a`, the first sample of
`immudb_vlog_size_bytes` the untyped value `b`, with `a` and `b` non-negative
integers whose sum is below `2^53`, and the other two families have a first sample,
`withDBInfo` completes with `db.name = d`, `db.lsmBytes = a`, `db.vlogBytes = b`,
`db.totalBytes = a + b`, `db.nbEntries` the counter value of the first sample of
`immudb_number_of_stored_entries` converted to `uint64` (the integer itself, for an
integer below `2^53`) and `db.uptimeHours` the counter value of the first sample of
`immudb_uptime_hours`. -/
theorem withDBInfo_on_integer_sizes [GoFloat64.Exact F] (metricsFamilies : Families F)
    (ms : metrics F) (lsm vlog entries uptime : Metric F) (d : String) (a b : Nat)
    (hlsm : (MetricFamily.GetMetric (metricsFamilies "immudb_lsm_size_bytes"))[0]? = some lsm)
    (hvlog : (MetricFamily.GetMetric (metricsFamilies "immudb_vlog_size_bytes"))[0]? = some vlog)
    (hentries :
      (MetricFamily.GetMetric (metricsFamilies "immudb_number_of_stored_entries"))[0]?
        = some entries)
    (huptime : (MetricFamily.GetMetric (metricsFamilies "immudb_uptime_hours"))[0]? = some uptime)
    (hname : findLabel "database" lsm.label = some d)
    (ha : Untyped.GetValue lsm.untyped = GoFloat64.ofUInt64 a)
    (hb : Untyped.GetValue vlog.untyped = GoFloat64.ofUInt64 b)
    (hab : a + b < 2 ^ 53) :
    withDBInfo metricsFamilies ms =
        some { ms with
          db :=
            { name := d
              lsmBytes := a
              vlogBytes := b
              totalBytes := a + b
              nbEntries := uint64 (Counter.GetValue entries.counter)
              uptimeHours := Counter.GetValue uptime.counter } } ∧
      ∀ n : Nat, n < 2 ^ 53 → Counter.GetValue entries.counter = GoFloat64.ofUInt64 n →
        uint64 (Counter.GetValue entries.counter) = n := by
  have hconv : ∀ n : Nat, n < 2 ^ 53 → uint64 (GoFloat64.ofUInt64 n : F) = n := by
    intro n hn
    unfold uint64
    rw [GoFloat64.Exact.toUInt64_ofUInt64 n hn]
    exact Nat.mod_eq_of_lt (by omega)
  refine ⟨?_, ?_⟩
  · rw [withDBInfo_eq_some metricsFamilies ms lsm vlog entries uptime hlsm hvlog hentries
      huptime, hname, ha, hb, GoFloat64.Exact.add_ofUInt64 a b hab, hconv a (by omega),
      hconv b (by omega), hconv (a + b) hab]
    rfl
  · intro n hn hvalue
    rw [hvalue, hconv n hn]

theorem withDBInfo_on_integer_sizes_witness :
    withDBInfo getAndSet metrics.zero =
      some { (metrics.zero : metrics ℚ) with
        db := { name := "db1", lsmBytes := 100, vlogBytes := 50, totalBytes := 100 + 50,
                nbEntries := uint64 (Counter.GetValue ({ counter := some ⟨some 7⟩ } : Metric ℚ).counter),
                uptimeHours := Counter.GetValue ({ counter := some ⟨some 3⟩ } : Metric ℚ).counter } } ∧
      (withDBInfo getAndSet metrics.zero).map (fun ms => ms.db) = some scrapeDB :=
  ⟨(withDBInfo_on_integer_sizes getAndSet metrics.zero
      { label := [⟨some "database", some "db1"⟩], untyped := some ⟨some 100⟩ }
      { untyped := some ⟨some 50⟩ } { counter := some ⟨some 7⟩ } { counter := some ⟨some 3⟩ }
      "db1" 100 50 (by decide!) (by decide!) (by decide!) (by decide!) (by decide!)
      (by decide!) (by decide!) (by norm_num)).1,
    by decide!⟩

/-- C16: after `withDuration`, from any receiver, `durationRPCsByMethod` has the key
`m` iff some sample of `grpc_server_handling_seconds` has the method name `m` (the
value of its `grpc_method` label, or the empty string when it has none); the entry of
`m` is the one built from the last such sample in family order, and its field `method`
is `m`. -/
theorem durations_keyed_by_last_sample (metricsFamilies : Families F) (ms : metrics F) :
    (∀ k : String, k ∈ GoMap.keys (withDuration metricsFamilies ms).durationRPCsByMethod ↔
        ∃ m ∈ durationSamples metricsFamilies, methodName m = k) ∧
      (∀ (k : String) (e : rpcDuration F),
        GoMap.get? (withDuration metricsFamilies ms).durationRPCsByMethod k = some e ↔
          ∃ pre m post, durationSamples metricsFamilies = pre ++ m :: post ∧
            methodName m = k ∧ (∀ m' ∈ post, methodName m' ≠ k) ∧
            e =
              { method := k
                counter := Histogram.GetSampleCount m.histogram
                totalDuration := Histogram.GetSampleSum m.histogram
                avgDuration := sampleAverage m }) ∧
      (∀ m : Metric F,
        (findLabel "grpc_method" m.label = none → methodName m = "") ∧
        (∀ name : String, findLabel "grpc_method" m.label = some name → methodName m = name)) := by
  simp only [withDuration_eq]
  refine ⟨?_, ?_, ?_⟩
  · intro k
    rw [GoMap.mem_keys_foldl_set]
    exact ⟨fun h => h.resolve_left (List.not_mem_nil _), Or.inr⟩
  · intro k e
    rw [GoMap.get?_foldl_set_eq_some_iff methodName rpcOf]
    constructor
    · rintro ⟨pre, m, post, hlist, hk, hpost, he⟩
      exact ⟨pre, m, post, hlist, hk, hpost, by rw [he, ← hk]; rfl⟩
    · rintro ⟨pre, m, post, hlist, hk, hpost, he⟩
      exact ⟨pre, m, post, hlist, hk, hpost, by rw [he, ← hk]; rfl⟩
  · intro m
    constructor
    · intro h; simp [methodName, labelValue, h]
    · intro name h; simp [methodName, labelValue, h]

theorem durations_keyed_by_last_sample_witness :
    (withDuration twoGets metrics.zero).durationRPCsByMethod = [("Get", ⟨"Get", 4, 2, 1 / 2⟩)] ∧
      GoMap.get? (withDuration twoGets metrics.zero).durationRPCsByMethod "Get" =
        some ⟨"Get", 4, 2, 1 / 2⟩ :=
  ⟨by decide!,
    ((durations_keyed_by_last_sample twoGets metrics.zero).2.1 "Get" ⟨"Get", 4, 2, 1 / 2⟩).2
      ⟨[histogramSample "Get" 10 5], histogramSample "Get" 4 2, [],
        by decide!, by decide!, by decide!, by decide!⟩⟩

/-- C17: the four passes are independent: `withDBInfo` changes only `db`, `withClients`
only `nbClients`, `nbRPCsPerClient` and `lastMsgAtPerClient`, `withDuration` only
`durationRPCsByMethod`, `reads` and `writes`, and `withMemStats` only `memstats`;
and running the four passes in any order yields what `populateFrom` yields: the same
metrics value when none of them faults (and a fault when one of them does). -/
theorem passes_independent_in_any_order (metricsFamilies : Families F) (ms : metrics F) :
    (∀ ms' : metrics F, withDBInfo metricsFamilies ms = some ms' →
        ms' = { ms with db := ms'.db }) ∧
      withClients metricsFamilies ms =
        { ms with
          nbClients := (withClients metricsFamilies ms).nbClients
          nbRPCsPerClient := (withClients metricsFamilies ms).nbRPCsPerClient
          lastMsgAtPerClient := (withClients metricsFamilies ms).lastMsgAtPerClient } ∧
      withDuration metricsFamilies ms =
        { ms with
          durationRPCsByMethod := (withDuration metricsFamilies ms).durationRPCsByMethod
          reads := (withDuration metricsFamilies ms).reads
          writes := (withDuration metricsFamilies ms).writes } ∧
      (∀ ms' : metrics F, withMemStats metricsFamilies ms = some ms' →
        ms' = { ms with memstats := ms'.memstats }) ∧
      (∀ order : List (metrics F → Option (metrics F)),
        order.Perm (passes metricsFamilies) →
          runPasses order ms = populateFrom metricsFamilies ms) := by
  refine ⟨?_, ?_, ?_, ?_, ?_⟩
  · intro ms' h
    rw [withDBInfo_eq_dbInfoOf] at h
    cases hd : dbInfoOf metricsFamilies ms.db with
    | none => rw [hd] at h; simp at h
    | some d =>
      rw [hd] at h
      simp only [Option.map_some', Option.some.injEq] at h
      subst h
      rfl
  · simp only [withClients_eq]
  · simp only [withDuration_eq]
  · intro ms' h
    rw [withMemStats_eq] at h
    cases hs : memStatsOf metricsFamilies ms.memstats with
    | none => rw [hs] at h; simp at h
    | some s =>
      rw [hs] at h
      simp only [Option.map_some', Option.some.injEq] at h
      subst h
      rfl
  · intro order horder
    rw [← runPasses_passes]
    refine runPasses_perm order (passes metricsFamilies) horder ?_ ms
    intro p hp q hq
    exact passes_commute metricsFamilies p (horder.mem_iff.1 hp) q (horder.mem_iff.1 hq)

theorem passes_independent_in_any_order_witness :
    runPasses (passes getAndSet).reverse metrics.zero = some getAndSetResult ∧
      runPasses
          [fun ms => some (withDuration getAndSet ms), withMemStats getAndSet,
            withDBInfo getAndSet, fun ms => some (withClients getAndSet ms)]
          metrics.zero = some getAndSetResult :=
  ⟨((passes_independent_in_any_order getAndSet metrics.zero).2.2.2.2 (passes getAndSet).reverse
      (List.reverse_perm _)).trans populateFrom_getAndSet,
    by decide!⟩

/-- C18: the tables `readers` and `writers` are disjoint: no method name is a key of
both.  So no sample is added to both aggregates, and the two `if` blocks of the loop
of `withDuration` are a three-way choice Read / Write / Unclassified: the loop body
equals the one written with that choice. -/
theorem tables_disjoint_three_way :
    (∀ k ∈ GoMap.keys readers, k ∉ GoMap.keys writers) ∧
      (∀ method : String,
        ¬ ((GoMap.get? readers method).isSome = true ∧
          (GoMap.get? writers method).isSome = true)) ∧
      (∀ method : String,
        (classify method = MethodClass.Read ↔ (GoMap.get? readers method).isSome = true) ∧
        (classify method = MethodClass.Write ↔ (GoMap.get? writers method).isSome = true) ∧
        (classify method = MethodClass.Unclassified ↔
          GoMap.get? readers method = none ∧ GoMap.get? writers method = none)) ∧
      (∀ (F : Type) [GoFloat64 F] (ms : metrics F) (m : Metric F),
        withDurationStep ms m = threeWayStep ms m ∧
        ((withDurationStep ms m).reads = ms.reads ∨
          (withDurationStep ms m).writes = ms.writes)) := by
  refine ⟨by decide, readers_writers_disjoint, ?_, ?_⟩
  · intro method
    have hdisj := readers_writers_disjoint method
    have hnone : ∀ o : Option Bool, o = none ↔ ¬ (o.isSome = true) := by
      intro o; cases o <;> simp
    unfold classify
    simp only [isReader, isWriter, hnone] at hdisj ⊢
    by_cases hr : (GoMap.get? readers method).isSome = true <;>
    by_cases hw : (GoMap.get? writers method).isSome = true <;>
      simp [hr, hw] at hdisj ⊢
  · intro F _ ms m
    have hdisj := readers_writers_disjoint (methodName m)
    rw [withDurationStep_eq]
    unfold threeWayStep classify readsStep writesStep
    by_cases hr : isReader (methodName m) = true <;>
    by_cases hw : isWriter (methodName m) = true <;>
      simp [hr, hw] at hdisj ⊢

theorem tables_disjoint_three_way_witness :
    "Get" ∈ GoMap.keys readers ∧ "Get" ∉ GoMap.keys writers ∧
      classify "Get" = MethodClass.Read ∧ classify "Set" = MethodClass.Write ∧
      classify "Backup" = MethodClass.Unclassified ∧
      withDurationStep (metrics.zero : metrics ℚ) (histogramSample "Set" 4 2) =
        threeWayStep (metrics.zero : metrics ℚ) (histogramSample "Set" 4 2) :=
  ⟨by decide, tables_disjoint_three_way.1 "Get" (by decide), by decide, by decide, by decide,
    (tables_disjoint_three_way.2.2.2 ℚ metrics.zero (histogramSample "Set" 4 2)).1⟩

/-- C19: after `withDuration` on the zero-valued metrics, `reads.counter` is the number
of samples of `grpc_server_handling_seconds` whose method name is in `readers`, each
sample counted (as a `uint64`, so modulo `2^64`; a Go slice has fewer than `2^63`
elements).  Hence `reads.counter` is at least the number of keys of
`durationRPCsByMethod` that are in `readers`, with equality exactly when no
read-classified method name is carried by two samples. -/
theorem reads_counter_counts_samples (metricsFamilies : Families F) :
    (withDuration metricsFamilies metrics.zero).reads.counter =
        (readSamples metricsFamilies).length % 2 ^ 64 ∧
      ((durationSamples metricsFamilies).length < 2 ^ 63 →
        (withDuration metricsFamilies metrics.zero).reads.counter =
          (readSamples metricsFamilies).length ∧
        (readKeys (withDuration metricsFamilies metrics.zero)).length ≤
          (withDuration metricsFamilies metrics.zero).reads.counter ∧
        ((readKeys (withDuration metricsFamilies metrics.zero)).length =
            (withDuration metricsFamilies metrics.zero).reads.counter ↔
          (readMethodNames metricsFamilies).Nodup)) := by
  have hcount : (withDuration metricsFamilies (metrics.zero : metrics F)).reads.counter =
      (readSamples metricsFamilies).length % 2 ^ 64 := by
    rw [withDuration_eq]
    simp only [finish_counter]
    rw [foldl_readsStep_counter _ _ (by simp [metrics.zero])]
    simp only [metrics.zero, Nat.zero_add]
    rfl
  refine ⟨hcount, ?_⟩
  intro hslice
  have hle : (readSamples metricsFamilies).length ≤ (durationSamples metricsFamilies).length :=
    List.length_filter_le _ _
  have hplain : (withDuration metricsFamilies (metrics.zero : metrics F)).reads.counter =
      (readSamples metricsFamilies).length := by
    rw [hcount]; exact Nat.mod_eq_of_lt (by omega)
  have hnames : (readMethodNames metricsFamilies).length = (readSamples metricsFamilies).length :=
    List.length_map _ _
  rw [hplain, length_readKeys_withDuration, ← hnames]
  exact ⟨rfl, (List.dedup_sublist _).length_le, length_dedup_eq_iff_nodup _⟩

theorem reads_counter_counts_samples_witness :
    (durationSamples twoGets).length < 2 ^ 63 ∧
      (withDuration twoGets metrics.zero).reads.counter = 2 ∧
      (readSamples twoGets).length = 2 ∧
      (readKeys (withDuration twoGets metrics.zero)).length = 1 ∧
      (readKeys (withDuration twoGets metrics.zero)).length ≤
        (withDuration twoGets metrics.zero).reads.counter ∧
      ¬ (readMethodNames twoGets).Nodup :=
  ⟨by decide!, by decide!, by decide!, by decide!,
    ((reads_counter_counts_samples twoGets).2 (by decide!)).2.1, by decide!⟩

/-- C20, as stated, fails: with `grpc_server_handling_seconds` missing, `withDuration`
on a receiver whose `reads` is `{counter: 1, duration: 5, avgDuration: 0}` sets
`reads.avgDuration` to 5. -/
theorem withDuration_recomputes_average :
    durationSamples noFamilies = [] ∧
      (withDuration noFamilies staleAverage).reads = ⟨1, 5, 5⟩ ∧
      (withDuration noFamilies staleAverage).reads ≠ staleAverage.reads := by
  exact ⟨by decide!, by decide!, by decide!⟩

/-- C20, amended: `withClients` and `withDuration` never fault, and a missing family
reads as a family without samples.  When `immudb_number_of_rpcs_per_client` has no
samples, `withClients` yields `nbClients = 0` and an empty `nbRPCsPerClient`; when
`immudb_clients_last_message_at_unix_seconds` has none, an empty
`lastMsgAtPerClient`; when `grpc_server_handling_seconds` has none, `withDuration`
yields an empty `durationRPCsByMethod` and leaves `counter` and `duration` of `reads`
and `writes` unchanged, and `reads` and `writes` altogether when their averages are
up to date, as they are in the zero-valued metrics and after any `withDuration`. -/
theorem absent_families_never_fault (metricsFamilies : Families F) (ms : metrics F) :
    (∀ name : String, metricsFamilies name = none →
        MetricFamily.GetMetric (metricsFamilies name) = []) ∧
      (rpcSamples metricsFamilies = [] →
        (withClients metricsFamilies ms).nbClients = 0 ∧
        (withClients metricsFamilies ms).nbRPCsPerClient = []) ∧
      (lastMsgSamples metricsFamilies = [] →
        (withClients metricsFamilies ms).lastMsgAtPerClient = []) ∧
      (durationSamples metricsFamilies = [] →
        (withDuration metricsFamilies ms).durationRPCsByMethod = [] ∧
        ((withDuration metricsFamilies ms).reads.counter = ms.reads.counter ∧
          (withDuration metricsFamilies ms).reads.duration = ms.reads.duration) ∧
        ((withDuration metricsFamilies ms).writes.counter = ms.writes.counter ∧
          (withDuration metricsFamilies ms).writes.duration = ms.writes.duration) ∧
        (ms.reads.Settled → (withDuration metricsFamilies ms).reads = ms.reads) ∧
        (ms.writes.Settled → (withDuration metricsFamilies ms).writes = ms.writes)) ∧
      ((metrics.zero : metrics F).reads.Settled ∧ (metrics.zero : metrics F).writes.Settled) ∧
      ((withDuration metricsFamilies ms).reads.Settled ∧
        (withDuration metricsFamilies ms).writes.Settled) := by
  have hfinish : ∀ o : operations F, o.Settled → finish o = o := by
    intro o ho
    unfold finish
    by_cases h : o.counter > 0
    · rw [if_pos h, ← ho h]
    · rw [if_neg h]
  have hsettled : ∀ o : operations F, (finish o).Settled := by
    intro o
    unfold finish operations.Settled
    by_cases h : o.counter > 0
    · rw [if_pos h]; intro _; rfl
    · rw [if_neg h]; intro h'; exact absurd h' h
  refine ⟨?_, ?_, ?_, ?_, ⟨?_, ?_⟩, ?_⟩
  · intro name h; rw [h]; rfl
  · intro h
    rw [withClients_nbClients, withClients_nbRPCsPerClient, h]
    exact ⟨rfl, rfl⟩
  · intro h
    rw [withClients_lastMsgAtPerClient, h]
    rfl
  · intro h
    simp only [withDuration_eq, h, List.foldl_nil, finish_counter, finish_duration, and_self,
      true_and]
    exact ⟨hfinish _, hfinish _⟩
  · intro h; exact absurd h (Nat.lt_irrefl 0)
  · intro h; exact absurd h (Nat.lt_irrefl 0)
  · simp only [withDuration_eq]
    exact ⟨hsettled _, hsettled _⟩

theorem absent_families_never_fault_witness :
    noFamilies "grpc_server_handling_seconds" = none ∧
      (withClients noFamilies staleMetrics).nbClients = 0 ∧
      (withClients noFamilies staleMetrics).nbRPCsPerClient = [] ∧
      (withDuration noFamilies getAndSetResult).reads = getAndSetResult.reads ∧
      (withDuration noFamilies getAndSetResult).durationRPCsByMethod = [] :=
  ⟨by decide!,
    ((absent_families_never_fault noFamilies staleMetrics).2.1 (by decide!)).1,
    ((absent_families_never_fault noFamilies staleMetrics).2.1 (by decide!)).2,
    ((absent_families_never_fault noFamilies getAndSetResult).2.2.2.1 (by decide!)).2.2.2.1
      (by intro _; decide!),
    ((absent_families_never_fault noFamilies getAndSetResult).2.2.2.1 (by decide!)).1⟩

end Claims

end Statisticscmd
